import Mathlib

/-!
Shallow embedding of the Radix engine components covered by the claims:
the fungible-vault blueprint (`radix-engine/src/blueprints/resource/fungible/fungible_vault.rs`),
the bucket blueprint (`radix-engine/src/blueprints/resource/bucket.rs`),
the costing module's call-depth guard
(`radix-engine/src/system/system_modules/costing/costing_module.rs`),
the execution-trace fee-lock aggregation
(`radix-engine/src/system/system_modules/execution_trace/module.rs`),
the manifest generator's name resolver (`transaction/src/manifest/generator.rs`),
and a transaction-level fee model.  Components of the repository that are not
under `src/` (the `Decimal`/resource container crate, the system-loan fee
reserve, the track and the transaction executor) are modelled from the spec;
each such definition carries a doc comment saying so.
-/

namespace RadixEngine

/-- Decimal values are represented by their raw subunit integer: the source's
`Decimal(BnumI256)` stores the value scaled by `10^18`.  The claims under
verification never exercise the 256-bit saturation bounds, so an unbounded
`Int` is used for the raw representation. -/
abbrev Decimal := Int

/-- Node ids are abstracted to naturals; only identity matters to the claims. -/
abbrev NodeId := Nat

/-- Resource addresses are abstracted to naturals. -/
abbrev ResourceAddress := Nat

/-- The XRD resource address (`RADIX_TOKEN`); represented by `0`. -/
def RADIX_TOKEN : ResourceAddress := 0

/-- Non-fungible local ids abstracted to naturals. -/
abbrev NonFungibleLocalId := Nat

/-! ## Error tree

Variants are taken from the enums declared or referenced under `src/`:
`BucketError` is declared in `bucket.rs`; the `VaultError`, `WorktopError`,
`CostingError` and kernel lock errors appear at their `use` sites in
`fungible_vault.rs`, `costing_module.rs` and `radix-engine-tests/tests/fee.rs`.
`FeeReserveError` variants follow spec §4.3.  Only the variants the claims
exercise are listed. -/

inductive ResourceError where
  | InsufficientBalance
deriving DecidableEq

inductive ProofError where
  | EmptyProofNotAllowed
deriving DecidableEq

inductive VaultError where
  | ResourceError (e : ResourceError)
  | InvalidAmount
  | LockFeeNotRadixToken
  | LockFeeInsufficientBalance
  | MismatchingResource
  | ProofError (e : ProofError)
deriving DecidableEq

inductive BucketError where
  | ResourceError (e : ResourceError)
  | ProofError (e : ProofError)
  | NonFungibleOperationNotSupported
  | MismatchingResource
  | NotEmpty
  | InvalidAmount
deriving DecidableEq

inductive WorktopError where
  | AssertionFailed
deriving DecidableEq

inductive ApplicationError where
  | VaultError (e : VaultError)
  | BucketError (e : BucketError)
  | WorktopError (e : WorktopError)
deriving DecidableEq

/-- Errors produced by `Track::acquire_lock`; the variant names appear in
`radix-engine-tests/tests/fee.rs`, spec §4.2 lists `NotFound` and
`Reentrancy`. -/
inductive AcquireLockError where
  | NotFound
  | Reentrancy
  | LockUnmodifiedBaseOnOnUpdatedSubstate
deriving DecidableEq

inductive OpenSubstateError where
  | TrackError (e : AcquireLockError)
deriving DecidableEq

inductive CallFrameError where
  | OpenSubstateError (e : OpenSubstateError)
deriving DecidableEq

inductive KernelError where
  | CallFrameError (e : CallFrameError)
deriving DecidableEq

/-- Fee reserve failure kinds, spec §4.3. -/
inductive FeeReserveError where
  | LoanNotRepaid
  | InsufficientBalance
  | InsufficientFunds
  | LockFeeAfterLoanRepaid
  | MaxCostUnitsExceeded
deriving DecidableEq

/-- Costing module errors, `costing_module.rs` lines 21-26. -/
inductive CostingError where
  | FeeReserveError (e : FeeReserveError)
  | MaxCallDepthLimitReached
  | WrongSubstateStoreDbAccessInfo
deriving DecidableEq

inductive SystemModuleError where
  | CostingError (e : CostingError)
deriving DecidableEq

inductive RuntimeError where
  | ApplicationError (e : ApplicationError)
  | KernelError (e : KernelError)
  | SystemModuleError (e : SystemModuleError)
deriving DecidableEq

/-! ## Name resolver (`transaction/src/manifest/generator.rs` lines 98-157)

`BTreeMap<String, _>` is modelled by an association list; `contains_key`,
`get` and `insert` below implement exactly the map operations the resolver
uses (insertion only ever happens on an absent key, so association-list
insertion by consing coincides with the B-tree map's). -/

abbrev ManifestBucket := Nat

abbrev ManifestProof := Nat

inductive NameResolverError where
  | UndefinedBucket (name : String)
  | UndefinedProof (name : String)
  | NamedAlreadyDefined (name : String)
deriving DecidableEq

/-- Map membership test (`BTreeMap::contains_key`). -/
def mapContainsKey (m : List (String × Nat)) (k : String) : Bool :=
  m.any (fun p => p.1 == k)

/-- Map lookup (`BTreeMap::get`). -/
def mapGet (m : List (String × Nat)) (k : String) : Option Nat :=
  (m.find? (fun p => p.1 == k)).map Prod.snd

/-- Map insertion (`BTreeMap::insert`, only ever called on an absent key). -/
def mapInsert (m : List (String × Nat)) (k : String) (v : Nat) : List (String × Nat) :=
  (k, v) :: m

structure NameResolver where
  named_buckets : List (String × ManifestBucket)
  named_proofs : List (String × ManifestProof)
deriving DecidableEq

/-- `NameResolver::new`. -/
def NameResolver.new : NameResolver := ⟨[], []⟩

/-- Translation of `NameResolver::insert_bucket` (generator.rs 118-129).  The
source takes `&mut self` and returns `Result<(), _>`; the error case performs
no mutation, which the embedding renders by returning no updated resolver. -/
def NameResolver.insert_bucket (r : NameResolver) (name : String)
    (bucket_id : ManifestBucket) : Except NameResolverError NameResolver :=
  if mapContainsKey r.named_buckets name || mapContainsKey r.named_proofs name then
    .error (.NamedAlreadyDefined name)
  else
    .ok ⟨mapInsert r.named_buckets name bucket_id, r.named_proofs⟩

/-- Translation of `NameResolver::insert_proof` (generator.rs 131-142). -/
def NameResolver.insert_proof (r : NameResolver) (name : String)
    (proof_id : ManifestProof) : Except NameResolverError NameResolver :=
  if mapContainsKey r.named_buckets name || mapContainsKey r.named_proofs name then
    .error (.NamedAlreadyDefined name)
  else
    .ok ⟨r.named_buckets, mapInsert r.named_proofs name proof_id⟩

/-- Translation of `NameResolver::resolve_bucket` (generator.rs 144-149). -/
def NameResolver.resolve_bucket (r : NameResolver) (name : String) :
    Except NameResolverError ManifestBucket :=
  match mapGet r.named_buckets name with
  | some bucket_id => .ok bucket_id
  | none => .error (.UndefinedBucket name)

/-- Translation of `NameResolver::resolve_proof` (generator.rs 151-156). -/
def NameResolver.resolve_proof (r : NameResolver) (name : String) :
    Except NameResolverError ManifestProof :=
  match mapGet r.named_proofs name with
  | some proof_id => .ok proof_id
  | none => .error (.UndefinedProof name)

/-- An insertion operation on the resolver, as issued by
`generate_instruction` while walking a manifest. -/
inductive NROp where
  | insertBucket (name : String) (id : ManifestBucket)
  | insertProof (name : String) (id : ManifestProof)
deriving DecidableEq

/-- Apply one resolver operation. -/
def NameResolver.runOp (r : NameResolver) : NROp → Except NameResolverError NameResolver
  | .insertBucket name id => r.insert_bucket name id
  | .insertProof name id => r.insert_proof name id

/-- Run a sequence of resolver operations; `generate_manifest` aborts on the
first error, so the run returns `none` when any operation fails. -/
def NameResolver.runOps (r : NameResolver) : List NROp → Option NameResolver
  | [] => some r
  | op :: ops =>
    match r.runOp op with
    | .ok r₁ => r₁.runOps ops
    | .error _ => none

/-! ## Execution-trace fee locks
(`system/system_modules/execution_trace/module.rs` lines 88-94, 166-169, 751-766) -/

inductive TraceActor where
  | Method (node_id : NodeId)
  | NonMethod
deriving DecidableEq

inductive VaultOp where
  | Create (amount : Decimal)
  | Put (resource : ResourceAddress) (amount : Decimal)
  | Take (resource : ResourceAddress) (amount : Decimal)
  | LockFee (amount : Decimal) (is_contingent : Bool)
deriving DecidableEq

structure FeeLocks where
  lock : Decimal
  contingent_lock : Decimal
deriving DecidableEq

/-- One step of the loop body of `calculate_fee_locks`. -/
def feeLocksStep (fl : FeeLocks) (entry : TraceActor × NodeId × VaultOp × Nat) : FeeLocks :=
  match entry.2.2.1 with
  | .LockFee amount is_contingent =>
    if !is_contingent then ⟨fl.lock + amount, fl.contingent_lock⟩
    else ⟨fl.lock, fl.contingent_lock + amount⟩
  | _ => fl

/-- Translation of `calculate_fee_locks` (module.rs 751-766): fold the
vault-operation log, accumulating non-contingent and contingent `LockFee`
amounts separately. -/
def calculate_fee_locks (vault_ops : List (TraceActor × NodeId × VaultOp × Nat)) : FeeLocks :=
  vault_ops.foldl feeLocksStep ⟨0, 0⟩

/-- Amount of a non-contingent `LockFee` entry, if it is one. -/
def nonContingentLockAmount (entry : TraceActor × NodeId × VaultOp × Nat) : Option Decimal :=
  match entry.2.2.1 with
  | .LockFee amount false => some amount
  | _ => none

/-- Amount of a contingent `LockFee` entry, if it is one. -/
def contingentLockAmount (entry : TraceActor × NodeId × VaultOp × Nat) : Option Decimal :=
  match entry.2.2.1 with
  | .LockFee amount true => some amount
  | _ => none

/-! ## Call-depth guard (`costing_module.rs` lines 127-150) -/

/-- Translation of the depth check at the head of `CostingModule::before_invoke`
(costing_module.rs 132-137): the invocation is refused with
`CostingError::MaxCallDepthLimitReached` exactly when the current call-frame
depth equals the configured `max_call_depth`. -/
def before_invoke_depth_guard (current_depth max_call_depth : Nat) :
    Except CostingError Unit :=
  if current_depth == max_call_depth then
    .error .MaxCallDepthLimitReached
  else
    .ok ()

/-- A chain of `n` nested invocations issued from a frame at `depth`: each
invocation runs the `before_invoke` depth guard and, when admitted, recurses
from the child frame at `depth + 1` (the kernel's root frame is depth 0).
Returns the depth reached. -/
def nestedCalls (max_call_depth : Nat) : Nat → Nat → Except CostingError Nat
  | depth, 0 => .ok depth
  | depth, n + 1 =>
    match before_invoke_depth_guard depth max_call_depth with
    | .error e => .error e
    | .ok () => nestedCalls max_call_depth (depth + 1) n

/-! ## Resource containers

The container crate (`radix-engine-interface`'s `LiquidFungibleResource`,
`LockedFungibleResource`, `LiquidNonFungibleResource`,
`LockedNonFungibleResource`) is not under `src/`; the definitions below are
modelled from the spec (§3 node invariants, §4.5 pure mutators) and from their
call sites in `fungible_vault.rs` and `bucket.rs`. -/

/-- Modelled from the spec: the liquid part of a fungible vault or bucket,
`LiquidFungible { amount: Decimal }` (§3). -/
structure LiquidFungibleResource where
  amount : Decimal
deriving DecidableEq

/-- Modelled from the spec: a container is empty iff its amount is zero
("a bucket is *empty* iff liquid+locked are zero", §3). -/
def LiquidFungibleResource.is_empty (r : LiquidFungibleResource) : Bool :=
  r.amount == 0

/-- Modelled from the spec: `LiquidFungible::take_by_amount` is a pure mutator
that "produce[s] a new detached resource or fail[s] with InsufficientBalance"
(§4.5).  Returns the detached part together with what remains in the
container. -/
def LiquidFungibleResource.take_by_amount (r : LiquidFungibleResource)
    (amount : Decimal) :
    Except ResourceError (LiquidFungibleResource × LiquidFungibleResource) :=
  if r.amount < amount then .error .InsufficientBalance
  else .ok (⟨amount⟩, ⟨r.amount - amount⟩)

/-- Modelled from the spec: putting a detached fungible resource into a
container adds the amounts.  (The implementation's 256-bit overflow check is
not exercised by any claim, as the embedding's integers are unbounded.) -/
def LiquidFungibleResource.put (r other : LiquidFungibleResource) :
    LiquidFungibleResource :=
  ⟨r.amount + other.amount⟩

/-- Modelled from the spec: the locked part of a fungible vault or bucket,
`LockedFungible { amounts: Map<Decimal, u32> }` (§3), as an association list
from locked amount to lock count. -/
structure LockedFungibleResource where
  amounts : List (Decimal × Nat)
deriving DecidableEq

/-- Modelled from the spec and the call sites in `fungible_vault.rs`
(`lock_amount`/`unlock_amount`, lines 372-433): `LockedFungibleResource::amount`
is the largest locked amount — the callers take only `amount - max_locked` from
liquid when locking `amount` and return `max_locked - amount()` to liquid when
unlocking, which conserves resource exactly when `amount()` is the maximum
key. -/
def LockedFungibleResource.amount (r : LockedFungibleResource) : Decimal :=
  r.amounts.foldl (fun m p => max m p.1) 0

/-- Map entry-or-default increment (`locked.amounts.entry(amount).or_default().add_assign(1)`). -/
def LockedFungibleResource.bump (r : LockedFungibleResource) (amount : Decimal) :
    LockedFungibleResource :=
  if r.amounts.any (fun p => p.1 == amount) then
    ⟨r.amounts.map (fun p => if p.1 == amount then (p.1, p.2 + 1) else p)⟩
  else
    ⟨(amount, 1) :: r.amounts⟩

/-- Modelled from the spec: the liquid part of a non-fungible vault or bucket,
`LiquidNonFungible { ids: Set }` (§3), as a duplicate-free id list. -/
structure LiquidNonFungibleResource where
  ids : List NonFungibleLocalId
deriving DecidableEq

/-- Modelled from the spec: a non-fungible container is empty iff it holds no
ids. -/
def LiquidNonFungibleResource.is_empty (r : LiquidNonFungibleResource) : Bool :=
  r.ids.isEmpty

/-- Modelled from the spec: the amount of a non-fungible container is the
number of ids it holds. -/
def LiquidNonFungibleResource.amount (r : LiquidNonFungibleResource) : Decimal :=
  (r.ids.length : Int)

/-- Modelled from the spec: putting detached non-fungibles unions the id sets
(`BTreeSet::extend`). -/
def LiquidNonFungibleResource.put (r other : LiquidNonFungibleResource) :
    LiquidNonFungibleResource :=
  ⟨r.ids ++ other.ids.filter (fun i => !r.ids.contains i)⟩

/-- Modelled from the spec: the locked part of a non-fungible vault or bucket,
`LockedNonFungible { ids: Map<Id, u32> }` (§3). -/
structure LockedNonFungibleResource where
  ids : List (NonFungibleLocalId × Nat)
deriving DecidableEq

/-- Modelled from the spec: the locked amount of a non-fungible container is
the number of distinct locked ids (`self.ids.len()`). -/
def LockedNonFungibleResource.amount (r : LockedNonFungibleResource) : Decimal :=
  (r.ids.length : Int)

/-- Modelled from the spec: a proof of a locked fungible amount (§3); the
evidence map of `FungibleProof` is irrelevant to the claims and elided. -/
structure FungibleProof where
  total_locked : Decimal
deriving DecidableEq

/-! ## Substate access bookkeeping

To state that an operation touches no substate and emits no event, each
embedded operation returns, besides its result, the list of effects it
performed in source order. -/

/-- Substate offsets used by the embedded operations
(`FungibleVaultOffset`/`BucketOffset`). -/
inductive SubstateOffset where
  | LiquidFungible
  | LockedFungible
  | LiquidNonFungible
  | LockedNonFungible
  | Info
  | Divisibility
deriving DecidableEq

/-- Events emitted through `Runtime::emit_event` by the embedded operations. -/
inductive EngineEvent where
  | WithdrawResourceAmount (amount : Decimal)
  | DepositResourceAmount (amount : Decimal)
  | DepositResourceIds (ids : List NonFungibleLocalId)
  | LockFeeEvent (amount : Decimal)
  | RecallResourceAmount (amount : Decimal)
deriving DecidableEq

/-- One observable effect of an embedded operation: acquiring a substate lock
(`lock_field` / `sys_lock_substate`) or emitting an event. -/
inductive Effect where
  | lockSubstate (offset : SubstateOffset)
  | event (e : EngineEvent)
deriving DecidableEq

/-! ## Lock flags and the track's lock acquisition -/

/-- Lock flags, from the flag names used in `fungible_vault.rs`
(`LockFlags::MUTABLE | LockFlags::UNMODIFIED_BASE | LockFlags::FORCE_WRITE`,
line 137, and `LockFlags::read_only()`). -/
structure LockFlags where
  mutableFlag : Bool
  unmodified_base : Bool
  force_write : Bool
deriving DecidableEq

/-- `LockFlags::read_only()`. -/
def LockFlags.read_only : LockFlags := ⟨false, false, false⟩

/-- The flag combination used by `lock_fee` on the vault's liquid substate
(fungible_vault.rs line 137). -/
def LockFlags.unmodifiedBaseMutable : LockFlags := ⟨true, true, true⟩

/-- What has happened to a tracked substate so far in the current
transaction. -/
inductive SubstateStatus where
  | Unmodified
  | JustRead
  | Updated
deriving DecidableEq

/-- Modelled from the spec: `Track::acquire_lock` in `UnmodifiedBaseMutable`
mode "fail[s] if the base has already been touched in this transaction" (§4.2);
the error variant `LockUnmodifiedBaseOnOnUpdatedSubstate` is the one matched in
`radix-engine-tests/tests/fee.rs` lines 189-202, and a substate that has only
been read is not an updated base. -/
def Track.acquire_lock (status : SubstateStatus) (flags : LockFlags) :
    Except AcquireLockError Unit :=
  if flags.unmodified_base && status == .Updated then
    .error .LockUnmodifiedBaseOnOnUpdatedSubstate
  else
    .ok ()

/-! ## Fee reserve (spec-modelled)

`SystemLoanFeeReserve` lives in the costing module's support crate, which is
not under `src/`; only its caller `CostingModule::credit_cost_units`
(costing_module.rs 78-92) is.  The model follows spec §4.3. -/

/-- Modelled from the spec (§4.3): the system-loan fee reserve.  `loan_debt` is
the XRD value of the deferred pre-loan charges that the first successful
non-contingent lock must repay; `post_loan` is the phase flag; `fee_vault` is
the fee-paying vault set by the first non-contingent lock; `locked_fee` and
`contingent_lock` accumulate the locked amounts. -/
structure SystemLoanFeeReserve where
  loan_debt : Decimal
  post_loan : Bool
  fee_vault : Option NodeId
  locked_fee : Decimal
  contingent_lock : Decimal
deriving DecidableEq

/-- Modelled from the spec (§4.3 `lock_fee`): record that `vault_id` committed
the detached resource `fee` toward fees.  A contingent lock is recorded
without affecting the phase.  The first non-contingent lock must fully repay
the loan ("the loan must be fully repaid by the first successful `lock_fee`",
§4.3; failure kind `LoanNotRepaid`); it transitions to `PostLoan` and sets the
fee-paying vault.  Multiple non-contingent locks sum.  The reserve keeps the
whole locked amount, so the returned change is empty. -/
def SystemLoanFeeReserve.lock_fee (r : SystemLoanFeeReserve) (vault_id : NodeId)
    (fee : LiquidFungibleResource) (contingent : Bool) :
    Except FeeReserveError (LiquidFungibleResource × SystemLoanFeeReserve) :=
  if contingent then
    .ok (⟨0⟩, ⟨r.loan_debt, r.post_loan, r.fee_vault, r.locked_fee,
      r.contingent_lock + fee.amount⟩)
  else if !r.post_loan && fee.amount < r.loan_debt then
    .error .LoanNotRepaid
  else
    .ok (⟨0⟩, ⟨r.loan_debt, true,
      (match r.fee_vault with | some v => some v | none => some vault_id),
      r.locked_fee + fee.amount, r.contingent_lock⟩)

/-! ## Fungible vault blueprint (`fungible_vault.rs`) -/

/-- The ambient data of a vault that the blueprint reads through the api: the
parent resource manager's divisibility (`get_divisibility`) and the vault's
resource address (`blueprint_parent`). -/
structure VaultCtx where
  divisibility : Nat
  resource_address : ResourceAddress
deriving DecidableEq

/-- The two substates of a fungible vault that the blueprint mutates. -/
structure FungibleVaultSubstates where
  liquid : LiquidFungibleResource
  locked : LockedFungibleResource
deriving DecidableEq

/-- Translation of `FungibleVaultBlueprint::check_amount` (fungible_vault.rs
16-20): a Decimal amount passes iff it is not negative and its raw subunit
integer is divisible by `10^(18 - divisibility)` (the source computes
`amount.0 % 10i128.pow(18 - divisibility) == 0`). -/
def check_amount (amount : Decimal) (divisibility : Nat) : Bool :=
  !(decide (amount < 0)) && amount % ((10 : Int) ^ (18 - divisibility)) == 0

/-- Translation of `FungibleVault::take` (fungible_vault.rs 321-341): lock the
liquid substate mutably, `take_by_amount` (mapping failure to
`VaultError::ResourceError`), write back, release, and emit
`WithdrawResourceEvent::Amount`. -/
def FungibleVault.take (amount : Decimal) (st : FungibleVaultSubstates) :
    Except RuntimeError (LiquidFungibleResource × FungibleVaultSubstates × List Effect) :=
  match st.liquid.take_by_amount amount with
  | .error e => .error (.ApplicationError (.VaultError (.ResourceError e)))
  | .ok (taken, rest) =>
    .ok (taken, ⟨rest, st.locked⟩,
      [.lockSubstate .LiquidFungible, .event (.WithdrawResourceAmount amount)])

/-- Translation of `FungibleVault::put` (fungible_vault.rs 343-369): an empty
resource returns `Ok(())` before any lock is taken or event emitted; otherwise
lock the liquid substate mutably, add the resource, write back and emit
`DepositResourceEvent::Amount`. -/
def FungibleVault.put (resource : LiquidFungibleResource)
    (st : FungibleVaultSubstates) :
    Except RuntimeError (FungibleVaultSubstates × List Effect) :=
  if resource.is_empty then .ok (st, [])
  else
    .ok (⟨st.liquid.put resource, st.locked⟩,
      [.lockSubstate .LiquidFungible, .event (.DepositResourceAmount resource.amount)])

/-- Translation of `FungibleVault::lock_amount` (fungible_vault.rs 372-407):
lock the locked substate, read `max_locked`, take `amount - max_locked` from
liquid when `amount` exceeds it, increment the lock count of `amount`, and
issue a proof for `amount` (the proof's evidence map is elided). -/
def FungibleVault.lock_amount (receiver : NodeId) (amount : Decimal)
    (st : FungibleVaultSubstates) :
    Except RuntimeError (FungibleProof × FungibleVaultSubstates × List Effect) :=
  let max_locked := st.locked.amount
  if amount > max_locked then
    match FungibleVault.take (amount - max_locked) st with
    | .error e => .error e
    | .ok (_, st₁, eff) =>
      .ok (⟨amount⟩, ⟨st₁.liquid, st₁.locked.bump amount⟩,
        .lockSubstate .LockedFungible :: eff)
  else
    .ok (⟨amount⟩, ⟨st.liquid, st.locked.bump amount⟩,
      [.lockSubstate .LockedFungible])

/-- Translation of `FungibleVaultBlueprint::take` (fungible_vault.rs 35-70):
read divisibility, check the amount (else `VaultError::InvalidAmount`), take
from the vault, and create a bucket node holding the taken resource. -/
def FungibleVaultBlueprint.take (ctx : VaultCtx) (amount : Decimal)
    (st : FungibleVaultSubstates) :
    Except RuntimeError (LiquidFungibleResource × FungibleVaultSubstates × List Effect) :=
  if !check_amount amount ctx.divisibility then
    .error (.ApplicationError (.VaultError .InvalidAmount))
  else
    match FungibleVault.take amount st with
    | .error e => .error e
    | .ok (taken, st₁, eff) => .ok (taken, st₁, .lockSubstate .Divisibility :: eff)

/-- Translation of `FungibleVaultBlueprint::put` (fungible_vault.rs 72-98):
drop the argument bucket, check the resource address (else
`VaultError::MismatchingResource`), and put its fungible content. -/
def FungibleVaultBlueprint.put (ctx : VaultCtx)
    (bucket_resource_address : ResourceAddress)
    (bucket_content : LiquidFungibleResource) (st : FungibleVaultSubstates) :
    Except RuntimeError (FungibleVaultSubstates × List Effect) :=
  if ctx.resource_address ≠ bucket_resource_address then
    .error (.ApplicationError (.VaultError .MismatchingResource))
  else
    FungibleVault.put bucket_content st

/-- Translation of `FungibleVaultBlueprint::recall` (fungible_vault.rs
166-197): check the amount (else `VaultError::InvalidAmount`), take, create a
bucket, and emit `RecallResourceEvent::Amount`. -/
def FungibleVaultBlueprint.recall (ctx : VaultCtx) (amount : Decimal)
    (st : FungibleVaultSubstates) :
    Except RuntimeError (LiquidFungibleResource × FungibleVaultSubstates × List Effect) :=
  if !check_amount amount ctx.divisibility then
    .error (.ApplicationError (.VaultError .InvalidAmount))
  else
    match FungibleVault.take amount st with
    | .error e => .error e
    | .ok (taken, st₁, eff) =>
      .ok (taken, st₁,
        (.lockSubstate .Divisibility :: eff) ++ [.event (.RecallResourceAmount amount)])

/-- Translation of `FungibleVaultBlueprint::create_proof_by_amount`
(fungible_vault.rs 227-260): check the amount (else
`VaultError::InvalidAmount`), lock the amount and create a proof node. -/
def FungibleVaultBlueprint.create_proof_by_amount (ctx : VaultCtx)
    (receiver : NodeId) (amount : Decimal) (st : FungibleVaultSubstates) :
    Except RuntimeError (FungibleProof × FungibleVaultSubstates × List Effect) :=
  if !check_amount amount ctx.divisibility then
    .error (.ApplicationError (.VaultError .InvalidAmount))
  else
    match FungibleVault.lock_amount receiver amount st with
    | .error e => .error e
    | .ok (proof, st₁, eff) => .ok (proof, st₁, .lockSubstate .Divisibility :: eff)

/-- Translation of `FungibleVaultBlueprint::lock_fee` (fungible_vault.rs
109-164), in source order:
1. the vault's resource must be `RADIX_TOKEN`, else
   `VaultError::LockFeeNotRadixToken` (lines 118-125);
2. the amount must pass `check_amount`, else `VaultError::InvalidAmount`
   (lines 127-132);
3. the liquid substate is locked with
   `MUTABLE | UNMODIFIED_BASE | FORCE_WRITE` (lines 134-138), which fails on a
   base already updated in this transaction (the failure surfaces wrapped as
   a kernel open-substate track error, as matched in tests/fee.rs 189-202);
4. `take_by_amount` for the fee, mapping failure to
   `VaultError::LockFeeInsufficientBalance` (lines 141-146);
5. `credit_cost_units` hands the fee to the reserve
   (costing_module.rs 78-92 wraps `FeeReserveError` into
   `SystemModuleError::CostingError::FeeReserveError`);
6. returned changes are put back, the substate is flushed (a force-write) and
   `LockFeeEvent` is emitted (lines 151-161). -/
def FungibleVaultBlueprint.lock_fee (ctx : VaultCtx) (receiver : NodeId)
    (reserve : SystemLoanFeeReserve) (liquidStatus : SubstateStatus)
    (amount : Decimal) (contingent : Bool) (st : FungibleVaultSubstates) :
    Except RuntimeError (FungibleVaultSubstates × SystemLoanFeeReserve × List Effect) :=
  if ctx.resource_address ≠ RADIX_TOKEN then
    .error (.ApplicationError (.VaultError .LockFeeNotRadixToken))
  else if !check_amount amount ctx.divisibility then
    .error (.ApplicationError (.VaultError .InvalidAmount))
  else
    match Track.acquire_lock liquidStatus LockFlags.unmodifiedBaseMutable with
    | .error e =>
      .error (.KernelError (.CallFrameError (.OpenSubstateError (.TrackError e))))
    | .ok () =>
      match st.liquid.take_by_amount amount with
      | .error _ =>
        .error (.ApplicationError (.VaultError .LockFeeInsufficientBalance))
      | .ok (fee, rest) =>
        match reserve.lock_fee receiver fee contingent with
        | .error e =>
          .error (.SystemModuleError (.CostingError (.FeeReserveError e)))
        | .ok (changes, reserve₁) =>
          let vault₁ : LiquidFungibleResource :=
            if !changes.is_empty then rest.put changes else rest
          .ok (⟨vault₁, st.locked⟩, reserve₁,
            [.lockSubstate .Divisibility, .lockSubstate .LiquidFungible,
             .event (.LockFeeEvent amount)])

/-! ## Bucket blueprint (`bucket.rs`) -/

inductive ResourceType where
  | Fungible (divisibility : Nat)
  | NonFungible
deriving DecidableEq

/-- `BucketInfoSubstate` (bucket.rs 23-27). -/
structure BucketInfoSubstate where
  resource_address : ResourceAddress
  resource_type : ResourceType
deriving DecidableEq

/-- Whether the resource type is fungible (`ResourceType::is_fungible`). -/
def ResourceType.is_fungible : ResourceType → Bool
  | .Fungible _ => true
  | .NonFungible => false

/-- The five substates of a bucket node, in the order they are created in
`bucket.rs` (info, liquid fungible, locked fungible, liquid non-fungible,
locked non-fungible). -/
structure BucketSubstates where
  info : BucketInfoSubstate
  liquid_fungible : LiquidFungibleResource
  locked_fungible : LockedFungibleResource
  liquid_non_fungible : LiquidNonFungibleResource
  locked_non_fungible : LockedNonFungibleResource
deriving DecidableEq

/-- Translation of `FungibleBucket::put` (bucket.rs 109-134): an empty
resource returns `Ok(())` before any substate lock is taken; otherwise the
liquid-fungible substate is locked mutably and the resource added.  Bucket
puts emit no events. -/
def FungibleBucket.put (resource : LiquidFungibleResource)
    (st : BucketSubstates) :
    Except RuntimeError (BucketSubstates × List Effect) :=
  if resource.is_empty then .ok (st, [])
  else
    .ok (⟨st.info, st.liquid_fungible.put resource, st.locked_fungible,
      st.liquid_non_fungible, st.locked_non_fungible⟩,
      [.lockSubstate .LiquidFungible])

/-- Translation of `NonFungibleBucket::put` (bucket.rs 330-356): an empty
resource returns `Ok(())` before any substate lock is taken; otherwise the
liquid-non-fungible substate is locked mutably and the ids added. -/
def NonFungibleBucket.put (resource : LiquidNonFungibleResource)
    (st : BucketSubstates) :
    Except RuntimeError (BucketSubstates × List Effect) :=
  if resource.is_empty then .ok (st, [])
  else
    .ok (⟨st.info, st.liquid_fungible, st.locked_fungible,
      st.liquid_non_fungible.put resource, st.locked_non_fungible⟩,
      [.lockSubstate .LiquidNonFungible])

/-- Modelled from the spec: the non-fungible vault blueprint is not under
`src/`; per §3 a bucket is the "transient counterpart of a vault", so its
`put` mirrors `NonFungibleBucket::put` with the vault's
`DepositResourceEvent::Ids` emission of `FungibleVault::put`'s shape. -/
def NonFungibleVault.put (resource : LiquidNonFungibleResource)
    (st : LiquidNonFungibleResource) :
    Except RuntimeError (LiquidNonFungibleResource × List Effect) :=
  if resource.is_empty then .ok (st, [])
  else
    .ok (st.put resource,
      [.lockSubstate .LiquidNonFungible, .event (.DepositResourceIds resource.ids)])

/-- Translation of `BucketBlueprint::get_amount` (bucket.rs 678-700): liquid
plus locked, on the fungible or non-fungible pair according to the bucket's
resource type. -/
def BucketBlueprint.get_amount (st : BucketSubstates) : Decimal :=
  if st.info.resource_type.is_fungible then
    st.liquid_fungible.amount + st.locked_fungible.amount
  else
    st.liquid_non_fungible.amount + st.locked_non_fungible.amount

/-- Translation of `BucketBlueprint::drop_empty` (bucket.rs 495-515): read the
bucket's total amount (`sys_amount`, which is `get_amount`); when it is zero,
drop the bucket node (`kernel_drop_node`, rendered by returning `none` for the
node) and return unit; otherwise fail with `BucketError::NotEmpty`.  The
failing path performs no write, so the node keeps its contents. -/
def BucketBlueprint.drop_empty (st : BucketSubstates) :
    Except RuntimeError (Option BucketSubstates) :=
  let amount := BucketBlueprint.get_amount st
  if amount == 0 then .ok none
  else .error (.ApplicationError (.BucketError .NotEmpty))

/-! ## Transaction-level fee model (spec-modelled)

The transaction executor and the track's `finalize` are not under `src/`; the
semantics below is modelled from spec §4.2 (`finalize(success)` returns
"writes + force-writes" on success and "only force-writes (fee lock must still
be debited)" on failure), §4.3 (`finalize(outcome)` "always debit
`effective_price × consumed`"; on reject "return every locked amount"), §4.11
and the outcome tiers of §7.  Transactions are runs of abstract events over
XRD vault balances: a fee lock (dispatching to the in-src
`FungibleVaultBlueprint::lock_fee`), an ordinary buffered vault write, a
read-only vault query, and a raised `RuntimeError`. -/

/-- Transaction-scope parameters: per-vault context (divisibility and resource
address), initial liquid balances, the loan debt the first fee lock must
repay, and the fee settled at finalization (`effective_price × consumed`,
spec §4.3). -/
structure TxParams where
  ctxOf : NodeId → VaultCtx
  base : NodeId → Decimal
  loan_debt : Decimal
  effective_price : Decimal
  consumed : Decimal

/-- The transaction's working view of the track: buffered balances and, per
vault, whether its liquid substate's base has been updated in this
transaction. -/
structure TxTrack where
  balances : NodeId → Decimal
  updated : NodeId → Bool

/-- The mutable state threaded through a transaction run. -/
structure TxState where
  track : TxTrack
  reserve : SystemLoanFeeReserve

/-- Events of a transaction run. -/
inductive TxEvent where
  | LockFee (vault : NodeId) (amount : Decimal) (contingent : Bool)
  | UpdateVault (vault : NodeId) (delta : Decimal)
  | QueryVault (vault : NodeId)
  | Fail (err : RuntimeError)

/-- The track status of a vault's liquid substate. -/
def TxTrack.statusOf (t : TxTrack) (v : NodeId) : SubstateStatus :=
  if t.updated v then .Updated else .Unmodified

/-- Point update of a balance map. -/
def updBal (f : NodeId → Decimal) (v : NodeId) (a : Decimal) : NodeId → Decimal :=
  fun w => if w = v then a else f w

/-- Point update of the touched map. -/
def updTouched (f : NodeId → Bool) (v : NodeId) : NodeId → Bool :=
  fun w => if w = v then true else f w

/-- One step of the transaction run.  A fee lock dispatches to
`FungibleVaultBlueprint::lock_fee` on the vault's current substates (its
write is a force-write, and it marks the base updated); an ordinary write is
buffered and marks the base updated; a query reads without touching the base;
`Fail` raises the given `RuntimeError`. -/
def txStep (p : TxParams) (st : TxState) : TxEvent → Except RuntimeError TxState
  | .LockFee v amount contingent =>
    match FungibleVaultBlueprint.lock_fee (p.ctxOf v) v st.reserve
        (st.track.statusOf v) amount contingent ⟨⟨st.track.balances v⟩, ⟨[]⟩⟩ with
    | .error e => .error e
    | .ok (vault₁, reserve₁, _) =>
      .ok ⟨⟨updBal st.track.balances v vault₁.liquid.amount,
        updTouched st.track.updated v⟩, reserve₁⟩
  | .UpdateVault v delta =>
    .ok ⟨⟨updBal st.track.balances v (st.track.balances v + delta),
      updTouched st.track.updated v⟩, st.reserve⟩
  | .QueryVault _ => .ok st
  | .Fail err => .error err

/-- Run the events in order, stopping at the first `RuntimeError` (spec §4.8
"Cancellation": any `RuntimeError` unwinds).  Returns the state reached and
the error, if any. -/
def txRun (p : TxParams) (st : TxState) : List TxEvent → TxState × Option RuntimeError
  | [] => (st, none)
  | e :: es =>
    match txStep p st e with
    | .ok st₁ => txRun p st₁ es
    | .error err => (st, some err)

/-- The initial transaction state over the given parameters. -/
def txInit (p : TxParams) : TxState :=
  ⟨⟨p.base, fun _ => false⟩, ⟨p.loan_debt, false, none, 0, 0⟩⟩

/-- Transaction outcomes (spec §7; the `Abort` tier is not exercised by any
claim and omitted). -/
inductive TransactionOutcome where
  | CommitSuccess
  | CommitFailure (err : RuntimeError)
  | Reject (err : RuntimeError)
deriving DecidableEq

/-- The error reported when a transaction ends without having repaid the
system loan (spec §7 tier 1: "unrepaid loan"). -/
def loanNotRepaidError : RuntimeError :=
  .SystemModuleError (.CostingError (.FeeReserveError .LoanNotRepaid))

/-- Modelled from the spec: finalization (§4.2 `finalize(success)`, §4.3
`finalize(outcome)`, §7).  The settled fee is `effective_price × consumed`.
On success the buffered writes stand and the fee-paying vault is repaid its
locks minus the fee; a run that ends without error but with the loan never
repaid is a rejection (§7 tier 1).  On a pre-loan error the outcome is
`Reject` and no write persists, every balance reverting to base.  On a
post-loan error the outcome is `Commit Failure`: only the fee debit
force-write persists — the fee-paying vault's base balance less the fee — and
every other write is discarded. -/
def txFinalize (p : TxParams) (st : TxState) (err : Option RuntimeError) :
    TransactionOutcome × (NodeId → Decimal) :=
  let fee := p.effective_price * p.consumed
  match err with
  | none =>
    if st.reserve.post_loan then
      (.CommitSuccess,
        fun v =>
          if st.reserve.fee_vault = some v then
            st.track.balances v + (st.reserve.locked_fee + st.reserve.contingent_lock - fee)
          else st.track.balances v)
    else
      (.Reject loanNotRepaidError, p.base)
  | some e =>
    if st.reserve.post_loan then
      (.CommitFailure e,
        fun v => if st.reserve.fee_vault = some v then p.base v - fee else p.base v)
    else
      (.Reject e, p.base)

/-- Execute a transaction: run the events from the initial state and
finalize. -/
def txExecute (p : TxParams) (es : List TxEvent) :
    TransactionOutcome × (NodeId → Decimal) :=
  let (st, err) := txRun p (txInit p) es
  txFinalize p st err

/-! ## Scale invariant (claim C2) -/

/-- The subunit granularity of a divisibility-`d` resource:
`10^(18 - d)` subunits. -/
def scaleUnit (divisibility : Nat) : Int :=
  (10 : Int) ^ (18 - divisibility)

/-- The scale-and-sign invariant of a fungible vault with divisibility `d`:
the liquid amount is non-negative and a whole multiple of the subunit
granularity (so `amount × 10^d` is an integer), and so is every locked
amount. -/
def VaultInv (divisibility : Nat) (st : FungibleVaultSubstates) : Prop :=
  0 ≤ st.liquid.amount ∧ scaleUnit divisibility ∣ st.liquid.amount ∧
    ∀ q ∈ st.locked.amounts, 0 ≤ q.1 ∧ scaleUnit divisibility ∣ q.1

/-! ## Helper lemmas -/

theorem mapGet_cons (k₂ : String) (v₂ : Nat) (m : List (String × Nat)) (k : String) :
    mapGet ((k₂, v₂) :: m) k = if k₂ == k then some v₂ else mapGet m k := by
  by_cases h : k₂ == k <;> simp [mapGet, List.find?, h]

theorem mapContainsKey_cons (k₂ : String) (v₂ : Nat) (m : List (String × Nat)) (k : String) :
    mapContainsKey ((k₂, v₂) :: m) k = ((k₂ == k) || mapContainsKey m k) := by
  simp [mapContainsKey]

theorem mapGet_some_contains {m : List (String × Nat)} {k : String} {v : Nat}
    (h : mapGet m k = some v) : mapContainsKey m k = true := by
  unfold mapGet at h
  unfold mapContainsKey
  cases hf : m.find? (fun p => p.1 == k) with
  | none => rw [hf] at h; simp at h
  | some p =>
    have hmem := List.mem_of_find?_eq_some hf
    have hp := List.find?_some hf
    simp only [List.any_eq_true]
    exact ⟨p, hmem, hp⟩

theorem runOp_preserves_bucket {r r₁ : NameResolver} {op : NROp} {name : String}
    {id : ManifestBucket} (hget : mapGet r.named_buckets name = some id)
    (hop : r.runOp op = .ok r₁) : mapGet r₁.named_buckets name = some id := by
  cases op with
  | insertBucket n₂ i₂ =>
    simp only [NameResolver.runOp, NameResolver.insert_bucket] at hop
    split at hop
    · exact absurd hop (by simp)
    · rename_i hcond
      injection hop with hop
      rw [← hop]
      have hne : (n₂ == name) = false := by
        cases h2 : (n₂ == name) with
        | false => rfl
        | true =>
          exfalso
          apply hcond
          have he : n₂ = name := eq_of_beq h2
          rw [he, mapGet_some_contains hget]
          simp
      show mapGet (mapInsert r.named_buckets n₂ i₂) name = some id
      simp only [mapInsert]
      rw [mapGet_cons, hne]
      simpa using hget
  | insertProof n₂ i₂ =>
    simp only [NameResolver.runOp, NameResolver.insert_proof] at hop
    split at hop
    · exact absurd hop (by simp)
    · injection hop with hop
      rw [← hop]
      exact hget

theorem runOp_preserves_proof {r r₁ : NameResolver} {op : NROp} {name : String}
    {id : ManifestProof} (hget : mapGet r.named_proofs name = some id)
    (hop : r.runOp op = .ok r₁) : mapGet r₁.named_proofs name = some id := by
  cases op with
  | insertBucket n₂ i₂ =>
    simp only [NameResolver.runOp, NameResolver.insert_bucket] at hop
    split at hop
    · exact absurd hop (by simp)
    · injection hop with hop
      rw [← hop]
      exact hget
  | insertProof n₂ i₂ =>
    simp only [NameResolver.runOp, NameResolver.insert_proof] at hop
    split at hop
    · exact absurd hop (by simp)
    · rename_i hcond
      injection hop with hop
      rw [← hop]
      have hne : (n₂ == name) = false := by
        cases h2 : (n₂ == name) with
        | false => rfl
        | true =>
          exfalso
          apply hcond
          have he : n₂ = name := eq_of_beq h2
          rw [he, mapGet_some_contains hget]
          simp
      show mapGet (mapInsert r.named_proofs n₂ i₂) name = some id
      simp only [mapInsert]
      rw [mapGet_cons, hne]
      simpa using hget

theorem runOps_preserves_bucket (ops : List NROp) :
    ∀ (r r₂ : NameResolver) (name : String) (id : ManifestBucket),
      mapGet r.named_buckets name = some id → r.runOps ops = some r₂ →
      mapGet r₂.named_buckets name = some id := by
  induction ops with
  | nil =>
    intro r r₂ name id hget hrun
    simp only [NameResolver.runOps, Option.some.injEq] at hrun
    exact hrun ▸ hget
  | cons op ops ih =>
    intro r r₂ name id hget hrun
    simp only [NameResolver.runOps] at hrun
    cases hop : r.runOp op with
    | error e =>
      simp only [hop] at hrun
      exact Option.noConfusion hrun
    | ok r₁ =>
      simp only [hop] at hrun
      exact ih r₁ r₂ name id (runOp_preserves_bucket hget hop) hrun

theorem runOps_preserves_proof (ops : List NROp) :
    ∀ (r r₂ : NameResolver) (name : String) (id : ManifestProof),
      mapGet r.named_proofs name = some id → r.runOps ops = some r₂ →
      mapGet r₂.named_proofs name = some id := by
  induction ops with
  | nil =>
    intro r r₂ name id hget hrun
    simp only [NameResolver.runOps, Option.some.injEq] at hrun
    exact hrun ▸ hget
  | cons op ops ih =>
    intro r r₂ name id hget hrun
    simp only [NameResolver.runOps] at hrun
    cases hop : r.runOp op with
    | error e =>
      simp only [hop] at hrun
      exact Option.noConfusion hrun
    | ok r₁ =>
      simp only [hop] at hrun
      exact ih r₁ r₂ name id (runOp_preserves_proof hget hop) hrun

/-! ## Claim C9 -/

/-- Claim C9: for every sequence of operations on the manifest generator's
name resolver, `resolve_bucket` (resp. `resolve_proof`) returns exactly the id
bound by the earlier successful `insert_bucket` (resp. `insert_proof`), a name
with no binding resolves to `UndefinedBucket` (resp. `UndefinedProof`), and
inserting a name already bound to any bucket or proof fails with
`NamedAlreadyDefined` — the error case of the source's `&mut self` method
performs no insertion, which the embedding renders by the error branch
returning no updated resolver, so the tables are unchanged. -/
theorem name_resolver_correct :
    ∀ (r r₁ r₂ : NameResolver) (ops : List NROp) (name : String)
      (idB : ManifestBucket) (idP : ManifestProof),
      (r.insert_bucket name idB = .ok r₁ → r₁.runOps ops = some r₂ →
        r₂.resolve_bucket name = .ok idB) ∧
      (r.insert_proof name idP = .ok r₁ → r₁.runOps ops = some r₂ →
        r₂.resolve_proof name = .ok idP) ∧
      (mapGet r.named_buckets name = none →
        r.resolve_bucket name = .error (.UndefinedBucket name)) ∧
      (mapGet r.named_proofs name = none →
        r.resolve_proof name = .error (.UndefinedProof name)) ∧
      ((mapContainsKey r.named_buckets name || mapContainsKey r.named_proofs name) = true →
        r.insert_bucket name idB = .error (.NamedAlreadyDefined name) ∧
        r.insert_proof name idP = .error (.NamedAlreadyDefined name)) := by
  intro r r₁ r₂ ops name idB idP
  refine ⟨?_, ?_, ?_, ?_, ?_⟩
  · intro hins hrun
    have hget : mapGet r₁.named_buckets name = some idB := by
      unfold NameResolver.insert_bucket at hins
      split at hins
      · simp at hins
      · simp only [Except.ok.injEq] at hins
        rw [← hins]
        simp [mapGet_cons, mapInsert]
    have := runOps_preserves_bucket ops r₁ r₂ name idB hget hrun
    unfold NameResolver.resolve_bucket
    rw [this]
  · intro hins hrun
    have hget : mapGet r₁.named_proofs name = some idP := by
      unfold NameResolver.insert_proof at hins
      split at hins
      · simp at hins
      · simp only [Except.ok.injEq] at hins
        rw [← hins]
        simp [mapGet_cons, mapInsert]
    have := runOps_preserves_proof ops r₁ r₂ name idP hget hrun
    unfold NameResolver.resolve_proof
    rw [this]
  · intro hnone
    unfold NameResolver.resolve_bucket
    rw [hnone]
  · intro hnone
    unfold NameResolver.resolve_proof
    rw [hnone]
  · intro hcont
    constructor
    · unfold NameResolver.insert_bucket
      rw [if_pos hcont]
    · unfold NameResolver.insert_proof
      rw [if_pos hcont]

/-- Witness for C9: a concrete run — bind bucket `b` to id 1, then bind proof
`p`, resolve `b` back to 1; re-inserting `b` fails with `NamedAlreadyDefined`. -/
theorem name_resolver_correct_witness :
    NameResolver.resolve_bucket ⟨[("b", 1)], [("p", 2)]⟩ "b" = .ok 1 ∧
    NameResolver.insert_bucket ⟨[("b", 1)], []⟩ "b" 3 = .error (.NamedAlreadyDefined "b") := by
  constructor
  · exact (name_resolver_correct ⟨[], []⟩ ⟨[("b", 1)], []⟩ ⟨[("b", 1)], [("p", 2)]⟩
      [.insertProof "p" 2] "b" 1 0).1 rfl rfl
  · exact ((name_resolver_correct ⟨[("b", 1)], []⟩ ⟨[], []⟩ ⟨[], []⟩ [] "b" 3 0).2.2.2.2
      rfl).1

/-! ## Claim C7 -/

theorem feeLocks_foldl (ops : List (TraceActor × NodeId × VaultOp × Nat)) :
    ∀ acc : FeeLocks,
      ops.foldl feeLocksStep acc =
        ⟨acc.lock + (ops.filterMap nonContingentLockAmount).sum,
         acc.contingent_lock + (ops.filterMap contingentLockAmount).sum⟩ := by
  induction ops with
  | nil => intro acc; simp
  | cons e es ih =>
    intro acc
    obtain ⟨a, n, op, i⟩ := e
    rw [List.foldl_cons, ih]
    cases op with
    | Create amt =>
      simp [feeLocksStep, nonContingentLockAmount, contingentLockAmount, List.filterMap_cons]
    | Put res amt =>
      simp [feeLocksStep, nonContingentLockAmount, contingentLockAmount, List.filterMap_cons]
    | Take res amt =>
      simp [feeLocksStep, nonContingentLockAmount, contingentLockAmount, List.filterMap_cons]
    | LockFee amt c =>
      cases c <;>
        simp [feeLocksStep, nonContingentLockAmount, contingentLockAmount,
          List.filterMap_cons, add_assoc]

/-- Claim C7: the execution trace's `fee_locks` pair computed by
`calculate_fee_locks` has `lock` equal to the sum of the amounts of all
non-contingent `LockFee` vault operations recorded during execution and
`contingent_lock` equal to the sum of the contingent ones; in particular a
trace whose only fee operation is a non-contingent lock of 104.676 XRD
(104676 × 10^15 subunits) yields lock = 104.676 and contingent lock = 0. -/
theorem calculate_fee_locks_sums (ops : List (TraceActor × NodeId × VaultOp × Nat)) :
    calculate_fee_locks ops =
      ⟨(ops.filterMap nonContingentLockAmount).sum,
       (ops.filterMap contingentLockAmount).sum⟩ ∧
    calculate_fee_locks [(.NonMethod, 1, .LockFee (104676 * 10 ^ 15) false, 0)] =
      ⟨104676 * 10 ^ 15, 0⟩ := by
  constructor
  · have h := feeLocks_foldl ops ⟨0, 0⟩
    simpa [calculate_fee_locks] using h
  · rfl

/-! ## Claim C3 -/

theorem nestedCalls_ok (m : Nat) :
    ∀ (n d : Nat), d + n ≤ m → nestedCalls m d n = .ok (d + n) := by
  intro n
  induction n with
  | zero => intro d _; simp [nestedCalls]
  | succ k ih =>
    intro d h
    have hbeq : (d == m) = false := by
      simp only [beq_eq_false_iff_ne, ne_eq]
      omega
    simp only [nestedCalls, before_invoke_depth_guard, hbeq, Bool.false_eq_true, if_false]
    rw [ih (d + 1) (by omega)]
    congr 1
    omega

theorem nestedCalls_err (m : Nat) :
    ∀ (n d : Nat), d ≤ m → m < d + n →
      nestedCalls m d n = .error .MaxCallDepthLimitReached := by
  intro n
  induction n with
  | zero => intro d h1 h2; omega
  | succ k ih =>
    intro d h1 h2
    by_cases hd : d = m
    · subst hd
      simp [nestedCalls, before_invoke_depth_guard]
    · have hbeq : (d == m) = false := by
        simp only [beq_eq_false_iff_ne, ne_eq]
        exact hd
      simp only [nestedCalls, before_invoke_depth_guard, hbeq, Bool.false_eq_true, if_false]
      exact ih (d + 1) (by omega) (by omega)

/-- Claim C3: starting from the root frame at depth 0, exactly
`max_call_depth` nested calls succeed (reaching that depth) and one more
fails with the costing module's max-call-depth error (named
`MaxCallDepthLimitReached` in the source); an invocation issued from a frame
whose depth has reached `max_call_depth` is refused by `before_invoke`, and
one issued from any shallower frame is not refused for depth reasons. -/
theorem max_call_depth_boundary (m : Nat) :
    nestedCalls m 0 m = .ok m ∧
    nestedCalls m 0 (m + 1) = .error .MaxCallDepthLimitReached ∧
    (∀ d, d < m → before_invoke_depth_guard d m = .ok ()) ∧
    before_invoke_depth_guard m m = .error .MaxCallDepthLimitReached := by
  refine ⟨?_, ?_, ?_, ?_⟩
  · simpa using nestedCalls_ok m m 0 (by omega)
  · exact nestedCalls_err m (m + 1) 0 (by omega) (by omega)
  · intro d hd
    have hbeq : (d == m) = false := by
      simp only [beq_eq_false_iff_ne, ne_eq]
      omega
    simp [before_invoke_depth_guard, hbeq]
  · simp [before_invoke_depth_guard]

/-- Witness for C3 at the repository's default depth limit of 16: sixteen
nested calls from the root succeed, the seventeenth fails, and an invocation
from depth 3 passes the guard. -/
theorem max_call_depth_boundary_witness :
    nestedCalls 16 0 16 = .ok 16 ∧
    nestedCalls 16 0 17 = .error .MaxCallDepthLimitReached ∧
    before_invoke_depth_guard 3 16 = .ok () :=
  ⟨(max_call_depth_boundary 16).1, (max_call_depth_boundary 16).2.1,
    (max_call_depth_boundary 16).2.2.1 3 (by omega)⟩

/-! ## Claim C8 -/

/-- Claim C8: `BucketBlueprint::drop_empty` destroys the bucket node (returns
unit, the node dropped) iff the bucket's total amount — liquid plus locked, as
computed by `get_amount` — is zero; on a non-empty bucket it fails with
`BucketError::NotEmpty`, and since that path performs no write the node keeps
its contents. -/
theorem drop_empty_iff_empty (st : BucketSubstates) :
    (BucketBlueprint.drop_empty st = .ok none ↔ BucketBlueprint.get_amount st = 0) ∧
    (BucketBlueprint.get_amount st ≠ 0 →
      BucketBlueprint.drop_empty st = .error (.ApplicationError (.BucketError .NotEmpty))) := by
  by_cases h : BucketBlueprint.get_amount st = 0
  · have hb : (BucketBlueprint.get_amount st == 0) = true := beq_iff_eq.mpr h
    refine ⟨⟨fun _ => h, fun _ => ?_⟩, fun hne => absurd h hne⟩
    simp [BucketBlueprint.drop_empty, hb]
  · have hb : (BucketBlueprint.get_amount st == 0) = false := by
      simp only [beq_eq_false_iff_ne, ne_eq]
      exact h
    refine ⟨⟨fun hcontra => ?_, fun he => absurd he h⟩, fun _ => ?_⟩
    · simp [BucketBlueprint.drop_empty, hb] at hcontra
    · simp [BucketBlueprint.drop_empty, hb]

/-- Witness for C8: a fungible bucket holding 5 subunits is refused with
`NotEmpty`; the same bucket with zero liquid and locked amounts is dropped. -/
theorem drop_empty_iff_empty_witness :
    BucketBlueprint.drop_empty ⟨⟨0, .Fungible 18⟩, ⟨5⟩, ⟨[]⟩, ⟨[]⟩, ⟨[]⟩⟩ =
      .error (.ApplicationError (.BucketError .NotEmpty)) ∧
    BucketBlueprint.drop_empty ⟨⟨0, .Fungible 18⟩, ⟨0⟩, ⟨[]⟩, ⟨[]⟩, ⟨[]⟩⟩ = .ok none := by
  constructor
  · exact (drop_empty_iff_empty _).2 (by decide)
  · exact (drop_empty_iff_empty _).1.mpr (by decide)

/-! ## Claim C10 -/

/-- Claim C10: `put` of an empty resource (zero amount for fungibles, empty id
set for non-fungibles) on a vault or bucket returns unit immediately and is a
complete no-op: the substates are unchanged, no substate lock is acquired and
no `DepositResourceEvent` is emitted (the effect list is empty), for each of
`FungibleVault::put`, `FungibleBucket::put`, `NonFungibleBucket::put` and the
spec-modelled non-fungible vault put. -/
theorem put_empty_is_noop
    (r : LiquidFungibleResource) (nr : LiquidNonFungibleResource)
    (vst : FungibleVaultSubstates) (bst : BucketSubstates)
    (nvst : LiquidNonFungibleResource)
    (hr : r.is_empty = true) (hnr : nr.is_empty = true) :
    FungibleVault.put r vst = .ok (vst, []) ∧
    FungibleBucket.put r bst = .ok (bst, []) ∧
    NonFungibleBucket.put nr bst = .ok (bst, []) ∧
    NonFungibleVault.put nr nvst = .ok (nvst, []) := by
  refine ⟨?_, ?_, ?_, ?_⟩ <;>
    simp [FungibleVault.put, FungibleBucket.put, NonFungibleBucket.put,
      NonFungibleVault.put, hr, hnr]

/-- Witness for C10: putting the empty fungible resource into a vault holding
7 subunits and the empty id set into a non-fungible bucket holding id 3 leave
both unchanged with no effects. -/
theorem put_empty_is_noop_witness :
    FungibleVault.put ⟨0⟩ ⟨⟨7⟩, ⟨[]⟩⟩ = .ok (⟨⟨7⟩, ⟨[]⟩⟩, []) ∧
    NonFungibleBucket.put ⟨[]⟩ ⟨⟨1, .NonFungible⟩, ⟨0⟩, ⟨[]⟩, ⟨[3]⟩, ⟨[]⟩⟩ =
      .ok (⟨⟨1, .NonFungible⟩, ⟨0⟩, ⟨[]⟩, ⟨[3]⟩, ⟨[]⟩⟩, []) := by
  have h := put_empty_is_noop ⟨0⟩ ⟨[]⟩ ⟨⟨7⟩, ⟨[]⟩⟩
    ⟨⟨1, .NonFungible⟩, ⟨0⟩, ⟨[]⟩, ⟨[3]⟩, ⟨[]⟩⟩ ⟨[]⟩ (by decide) (by decide)
  exact ⟨h.1, h.2.2.1⟩

/-! ## Claim C2: helper lemmas -/

theorem check_amount_spec (amount : Decimal) (d : Nat) :
    check_amount amount d = true ↔ 0 ≤ amount ∧ scaleUnit d ∣ amount := by
  unfold check_amount scaleUnit
  constructor
  · intro h
    rw [Bool.and_eq_true] at h
    obtain ⟨h1, h2⟩ := h
    refine ⟨?_, ?_⟩
    · rw [Bool.not_eq_true', decide_eq_false_iff_not] at h1
      exact le_of_not_lt h1
    · exact Int.dvd_of_emod_eq_zero (beq_iff_eq.mp h2)
  · intro h
    obtain ⟨h1, h2⟩ := h
    rw [Bool.and_eq_true]
    refine ⟨?_, ?_⟩
    · rw [Bool.not_eq_true', decide_eq_false_iff_not]
      exact not_lt.mpr h1
    · exact beq_iff_eq.mpr (Int.emod_eq_zero_of_dvd h2)

theorem foldl_max_choice (l : List (Decimal × Nat)) :
    ∀ acc : Decimal, l.foldl (fun m p => max m p.1) acc = acc ∨
      ∃ q ∈ l, l.foldl (fun m p => max m p.1) acc = q.1 := by
  induction l with
  | nil => intro acc; left; rfl
  | cons p l ih =>
    intro acc
    rcases ih (max acc p.1) with h | h
    · rw [List.foldl_cons, h]
      rcases max_choice acc p.1 with hm | hm
      · left; exact hm
      · right; exact ⟨p, List.mem_cons_self p l, hm⟩
    · obtain ⟨q, hq, he⟩ := h
      right
      exact ⟨q, List.mem_cons_of_mem p hq, by rw [List.foldl_cons, he]⟩

theorem locked_amount_inv (d : Nat) (r : LockedFungibleResource)
    (h : ∀ q ∈ r.amounts, 0 ≤ q.1 ∧ scaleUnit d ∣ q.1) :
    0 ≤ r.amount ∧ scaleUnit d ∣ r.amount := by
  unfold LockedFungibleResource.amount
  rcases foldl_max_choice r.amounts 0 with he | he
  · rw [he]; exact ⟨le_refl 0, dvd_zero _⟩
  · obtain ⟨q, hq, he⟩ := he
    rw [he]; exact h q hq

theorem bump_mem (r : LockedFungibleResource) (a : Decimal) :
    ∀ q ∈ (r.bump a).amounts, q.1 = a ∨ ∃ q₀ ∈ r.amounts, q.1 = q₀.1 := by
  intro q hq
  unfold LockedFungibleResource.bump at hq
  split at hq
  · simp only [List.mem_map] at hq
    obtain ⟨p, hp, he⟩ := hq
    by_cases hpa : (p.1 == a) = true
    · left
      rw [← he]
      simp only [hpa, if_true]
      exact eq_of_beq hpa
    · right
      refine ⟨p, hp, ?_⟩
      rw [← he]
      simp [hpa]
  · rcases List.mem_cons.mp hq with he | hm
    · left; rw [he]
    · right; exact ⟨q, hm, rfl⟩

theorem vault_take_inv (d : Nat) (amount : Decimal)
    (st st₁ : FungibleVaultSubstates) (taken : LiquidFungibleResource)
    (eff : List Effect) (hinv : VaultInv d st) (hda : scaleUnit d ∣ amount)
    (h : FungibleVault.take amount st = .ok (taken, st₁, eff)) :
    VaultInv d st₁ := by
  unfold FungibleVault.take at h
  cases htb : st.liquid.take_by_amount amount with
  | error e => simp [htb] at h
  | ok pr =>
    obtain ⟨tk, rest⟩ := pr
    simp only [htb, Except.ok.injEq, Prod.mk.injEq] at h
    obtain ⟨_, h2, _⟩ := h
    rw [← h2]
    unfold LiquidFungibleResource.take_by_amount at htb
    split at htb
    · exact absurd htb (by simp)
    · rename_i hlt
      simp only [Except.ok.injEq, Prod.mk.injEq] at htb
      obtain ⟨_, hrest⟩ := htb
      refine ⟨?_, ?_, hinv.2.2⟩
      · show 0 ≤ rest.amount
        rw [← hrest]
        show 0 ≤ st.liquid.amount - amount
        exact sub_nonneg.mpr (not_lt.mp hlt)
      · show scaleUnit d ∣ rest.amount
        rw [← hrest]
        exact dvd_sub hinv.2.1 hda

theorem reserve_lock_fee_changes (r : SystemLoanFeeReserve) (v : NodeId)
    (fee : LiquidFungibleResource) (c : Bool) (changes : LiquidFungibleResource)
    (r₁ : SystemLoanFeeReserve) (h : r.lock_fee v fee c = .ok (changes, r₁)) :
    changes = ⟨0⟩ := by
  unfold SystemLoanFeeReserve.lock_fee at h
  split at h
  · simp only [Except.ok.injEq, Prod.mk.injEq] at h
    exact h.1.symm
  · split at h
    · exact absurd h (by simp)
    · simp only [Except.ok.injEq, Prod.mk.injEq] at h
      exact h.1.symm

theorem vault_lock_amount_inv (d : Nat) (receiver : NodeId) (a : Decimal)
    (st st₁ : FungibleVaultSubstates) (proof : FungibleProof) (eff : List Effect)
    (hinv : VaultInv d st) (ha : 0 ≤ a) (hda : scaleUnit d ∣ a)
    (h : FungibleVault.lock_amount receiver a st = .ok (proof, st₁, eff)) :
    VaultInv d st₁ := by
  have hmax := locked_amount_inv d st.locked hinv.2.2
  simp only [FungibleVault.lock_amount] at h
  split at h
  · cases htk : FungibleVault.take (a - st.locked.amount) st with
    | error e => simp [htk] at h
    | ok out =>
      obtain ⟨tk, st₂, ef⟩ := out
      simp only [htk, Except.ok.injEq, Prod.mk.injEq] at h
      obtain ⟨_, h2, _⟩ := h
      rw [← h2]
      have hsub : VaultInv d st₂ :=
        vault_take_inv d (a - st.locked.amount) st st₂ tk ef hinv
          (dvd_sub hda hmax.2) htk
      refine ⟨hsub.1, hsub.2.1, ?_⟩
      intro q hq
      rcases bump_mem st₂.locked a q hq with he | he
      · rw [he]; exact ⟨ha, hda⟩
      · obtain ⟨q₀, hq₀, he⟩ := he
        rw [he]; exact hsub.2.2 q₀ hq₀
  · simp only [Except.ok.injEq, Prod.mk.injEq] at h
    obtain ⟨_, h2, _⟩ := h
    rw [← h2]
    refine ⟨hinv.1, hinv.2.1, ?_⟩
    intro q hq
    rcases bump_mem st.locked a q hq with he | he
    · rw [he]; exact ⟨ha, hda⟩
    · obtain ⟨q₀, hq₀, he⟩ := he
      rw [he]; exact hinv.2.2 q₀ hq₀

/-! ## Claim C2 -/

/-- Counterexample to claim C2 as stated: `lock_fee` on a vault whose resource
is not XRD, called with an amount that fails the scale-and-sign check (here
−1 subunit on a divisibility-18 vault of resource 1), fails with
`VaultError::LockFeeNotRadixToken`, not `VaultError::InvalidAmount` — the
resource-address check precedes the amount check in the source (lines 118-132
of fungible_vault.rs), so the universally quantified claim is false. -/
theorem fungible_vault_amount_checks_counterexample :
    check_amount (-1) 18 = false ∧
    FungibleVaultBlueprint.lock_fee ⟨18, 1⟩ 0 ⟨0, false, none, 0, 0⟩ .Unmodified (-1) false
        ⟨⟨0⟩, ⟨[]⟩⟩ =
      .error (.ApplicationError (.VaultError .LockFeeNotRadixToken)) ∧
    RuntimeError.ApplicationError (.VaultError .LockFeeNotRadixToken) ≠
      RuntimeError.ApplicationError (.VaultError .InvalidAmount) := by
  refine ⟨by decide, rfl, by decide⟩

/-- Claim C2 (amended): on a fungible vault of divisibility `d`, the amount
check accepts exactly the non-negative amounts that are whole multiples of
`10^(18-d)` subunits (equivalently, `amount × 10^d` is an integer); `take`,
`recall` and `create_proof_by_amount` fail with `VaultError::InvalidAmount`
whenever the amount fails the check, and so does `lock_fee` provided the
vault's resource is XRD (on a non-XRD vault `lock_fee` fails with
`LockFeeNotRadixToken` before the amount is checked).  Consequently the
scale-and-sign invariant — liquid amount and all locked amounts non-negative
whole multiples of the granularity — is preserved by every successful run of
these four operations. -/
theorem fungible_vault_amount_checks (ctx : VaultCtx) (receiver : NodeId)
    (reserve : SystemLoanFeeReserve) (status : SubstateStatus)
    (amount : Decimal) (contingent : Bool) (st : FungibleVaultSubstates) :
    (check_amount amount ctx.divisibility = true ↔
      0 ≤ amount ∧ scaleUnit ctx.divisibility ∣ amount) ∧
    (check_amount amount ctx.divisibility = false →
      FungibleVaultBlueprint.take ctx amount st =
        .error (.ApplicationError (.VaultError .InvalidAmount)) ∧
      FungibleVaultBlueprint.recall ctx amount st =
        .error (.ApplicationError (.VaultError .InvalidAmount)) ∧
      FungibleVaultBlueprint.create_proof_by_amount ctx receiver amount st =
        .error (.ApplicationError (.VaultError .InvalidAmount)) ∧
      (ctx.resource_address = RADIX_TOKEN →
        FungibleVaultBlueprint.lock_fee ctx receiver reserve status amount contingent st =
          .error (.ApplicationError (.VaultError .InvalidAmount)))) ∧
    (VaultInv ctx.divisibility st →
      (∀ taken st₁ eff,
        FungibleVaultBlueprint.take ctx amount st = .ok (taken, st₁, eff) →
        VaultInv ctx.divisibility st₁) ∧
      (∀ taken st₁ eff,
        FungibleVaultBlueprint.recall ctx amount st = .ok (taken, st₁, eff) →
        VaultInv ctx.divisibility st₁) ∧
      (∀ proof st₁ eff,
        FungibleVaultBlueprint.create_proof_by_amount ctx receiver amount st =
          .ok (proof, st₁, eff) →
        VaultInv ctx.divisibility st₁) ∧
      (∀ st₁ reserve₁ eff,
        FungibleVaultBlueprint.lock_fee ctx receiver reserve status amount contingent st =
          .ok (st₁, reserve₁, eff) →
        VaultInv ctx.divisibility st₁)) := by
  refine ⟨check_amount_spec amount ctx.divisibility, ?_, ?_⟩
  · intro hfalse
    refine ⟨?_, ?_, ?_, ?_⟩
    · simp [FungibleVaultBlueprint.take, hfalse]
    · simp [FungibleVaultBlueprint.recall, hfalse]
    · simp [FungibleVaultBlueprint.create_proof_by_amount, hfalse]
    · intro hx
      simp [FungibleVaultBlueprint.lock_fee, hx, RADIX_TOKEN, hfalse]
  · intro hinv
    refine ⟨?_, ?_, ?_, ?_⟩
    · intro taken st₁ eff h
      unfold FungibleVaultBlueprint.take at h
      split at h
      · exact absurd h (by simp)
      · rename_i hchk
        have hc : check_amount amount ctx.divisibility = true := by
          revert hchk
          cases check_amount amount ctx.divisibility <;> simp
        have hspec := (check_amount_spec amount ctx.divisibility).mp hc
        cases htk : FungibleVault.take amount st with
        | error e => simp [htk] at h
        | ok out =>
          obtain ⟨tk, st₂, ef⟩ := out
          simp only [htk, Except.ok.injEq, Prod.mk.injEq] at h
          obtain ⟨_, h2, _⟩ := h
          rw [← h2]
          exact vault_take_inv ctx.divisibility amount st st₂ tk ef hinv hspec.2 htk
    · intro taken st₁ eff h
      unfold FungibleVaultBlueprint.recall at h
      split at h
      · exact absurd h (by simp)
      · rename_i hchk
        have hc : check_amount amount ctx.divisibility = true := by
          revert hchk
          cases check_amount amount ctx.divisibility <;> simp
        have hspec := (check_amount_spec amount ctx.divisibility).mp hc
        cases htk : FungibleVault.take amount st with
        | error e => simp [htk] at h
        | ok out =>
          obtain ⟨tk, st₂, ef⟩ := out
          simp only [htk, Except.ok.injEq, Prod.mk.injEq] at h
          obtain ⟨_, h2, _⟩ := h
          rw [← h2]
          exact vault_take_inv ctx.divisibility amount st st₂ tk ef hinv hspec.2 htk
    · intro proof st₁ eff h
      unfold FungibleVaultBlueprint.create_proof_by_amount at h
      split at h
      · exact absurd h (by simp)
      · rename_i hchk
        have hc : check_amount amount ctx.divisibility = true := by
          revert hchk
          cases check_amount amount ctx.divisibility <;> simp
        have hspec := (check_amount_spec amount ctx.divisibility).mp hc
        cases hlk : FungibleVault.lock_amount receiver amount st with
        | error e => simp [hlk] at h
        | ok out =>
          obtain ⟨pf, st₂, ef⟩ := out
          simp only [hlk, Except.ok.injEq, Prod.mk.injEq] at h
          obtain ⟨_, h2, _⟩ := h
          rw [← h2]
          exact vault_lock_amount_inv ctx.divisibility receiver amount st st₂ pf ef hinv
            hspec.1 hspec.2 hlk
    · intro st₁ reserve₁ eff h
      unfold FungibleVaultBlueprint.lock_fee at h
      split at h
      · exact absurd h (by simp)
      · split at h
        · exact absurd h (by simp)
        · rename_i hchk
          have hc : check_amount amount ctx.divisibility = true := by
            revert hchk
            cases check_amount amount ctx.divisibility <;> simp
          have hspec := (check_amount_spec amount ctx.divisibility).mp hc
          cases hacq : Track.acquire_lock status LockFlags.unmodifiedBaseMutable with
          | error e => simp [hacq] at h
          | ok u =>
            cases u
            simp only [hacq] at h
            cases htb : st.liquid.take_by_amount amount with
            | error e => simp [htb] at h
            | ok pr =>
              obtain ⟨fee, rest⟩ := pr
              simp only [htb] at h
              cases hrl : reserve.lock_fee receiver fee contingent with
              | error e => simp [hrl] at h
              | ok pr₂ =>
                obtain ⟨changes, res₁⟩ := pr₂
                simp only [hrl] at h
                have hch : changes = ⟨0⟩ :=
                  reserve_lock_fee_changes reserve receiver fee contingent changes res₁ hrl
                subst hch
                simp only [LiquidFungibleResource.is_empty, Except.ok.injEq,
                  Prod.mk.injEq] at h
                obtain ⟨h1, _, _⟩ := h
                rw [← h1]
                unfold LiquidFungibleResource.take_by_amount at htb
                split at htb
                · exact absurd htb (by simp)
                · rename_i hlt
                  simp only [Except.ok.injEq, Prod.mk.injEq] at htb
                  obtain ⟨_, hrest⟩ := htb
                  refine ⟨?_, ?_, hinv.2.2⟩
                  · show 0 ≤ rest.amount
                    rw [← hrest]
                    show 0 ≤ st.liquid.amount - amount
                    exact sub_nonneg.mpr (not_lt.mp hlt)
                  · show scaleUnit ctx.divisibility ∣ rest.amount
                    rw [← hrest]
                    exact dvd_sub hinv.2.1 hspec.2

/-- Witness for C2: a divisibility-18 XRD vault holding 5 subunits refuses
`take` of −1 subunit with `InvalidAmount`, and after a successful `take` of 1
subunit the remaining state satisfies the scale-and-sign invariant. -/
theorem fungible_vault_amount_checks_witness :
    FungibleVaultBlueprint.take ⟨18, 0⟩ (-1) ⟨⟨5⟩, ⟨[]⟩⟩ =
      .error (.ApplicationError (.VaultError .InvalidAmount)) ∧
    VaultInv 18 ⟨⟨4⟩, ⟨[]⟩⟩ := by
  constructor
  · exact ((fungible_vault_amount_checks ⟨18, 0⟩ 0 ⟨0, false, none, 0, 0⟩ .Unmodified (-1)
      false ⟨⟨5⟩, ⟨[]⟩⟩).2.1 (by decide)).1
  · exact ((fungible_vault_amount_checks ⟨18, 0⟩ 0 ⟨0, false, none, 0, 0⟩ .Unmodified 1
      false ⟨⟨5⟩, ⟨[]⟩⟩).2.2
      ⟨by norm_num, by norm_num [scaleUnit], by intro q hq; simp at hq⟩).1 ⟨1⟩ ⟨⟨4⟩, ⟨[]⟩⟩
      [.lockSubstate .Divisibility, .lockSubstate .LiquidFungible,
        .event (.WithdrawResourceAmount 1)] rfl

/-! ## Transaction-level helper lemmas -/

theorem lock_fee_non_xrd_error (ctx : VaultCtx) (receiver : NodeId)
    (reserve : SystemLoanFeeReserve) (status : SubstateStatus) (a : Decimal)
    (c : Bool) (st : FungibleVaultSubstates)
    (h : ctx.resource_address ≠ RADIX_TOKEN) :
    FungibleVaultBlueprint.lock_fee ctx receiver reserve status a c st =
      .error (.ApplicationError (.VaultError .LockFeeNotRadixToken)) := by
  unfold FungibleVaultBlueprint.lock_fee
  rw [if_pos h]

theorem txRun_append (p : TxParams) (l₁ l₂ : List TxEvent) :
    ∀ st : TxState, txRun p st (l₁ ++ l₂) =
      match txRun p st l₁ with
      | (st₁, none) => txRun p st₁ l₂
      | (st₁, some e) => (st₁, some e) := by
  induction l₁ with
  | nil => intro st; simp [txRun]
  | cons e es ih =>
    intro st
    simp only [List.cons_append, txRun]
    cases h : txStep p st e with
    | ok st₁ =>
      simp only [h]
      exact ih st₁
    | error err => simp [h]

theorem lock_fee_reserve_evolution (ctx : VaultCtx) (receiver : NodeId)
    (reserve : SystemLoanFeeReserve) (status : SubstateStatus) (a : Decimal)
    (c : Bool) (st st₁ : FungibleVaultSubstates) (reserve₁ : SystemLoanFeeReserve)
    (eff : List Effect)
    (h : FungibleVaultBlueprint.lock_fee ctx receiver reserve status a c st =
      .ok (st₁, reserve₁, eff)) :
    (c = false → reserve₁.post_loan = true) ∧
    (c = true → reserve₁.post_loan = reserve.post_loan ∧
      reserve₁.fee_vault = reserve.fee_vault) ∧
    (∀ w, reserve.fee_vault = some w → reserve₁.fee_vault = some w) ∧
    (reserve.fee_vault = none → c = false → reserve₁.fee_vault = some receiver) := by
  unfold FungibleVaultBlueprint.lock_fee at h
  split at h
  · exact absurd h (by simp)
  · split at h
    · exact absurd h (by simp)
    · cases hacq : Track.acquire_lock status LockFlags.unmodifiedBaseMutable with
      | error e => simp [hacq] at h
      | ok u =>
        cases u
        simp only [hacq] at h
        cases htb : st.liquid.take_by_amount a with
        | error e => simp [htb] at h
        | ok pr =>
          obtain ⟨fee, rest⟩ := pr
          simp only [htb] at h
          cases hrl : reserve.lock_fee receiver fee c with
          | error e => simp [hrl] at h
          | ok pr₂ =>
            obtain ⟨changes, res₁⟩ := pr₂
            simp only [hrl, Except.ok.injEq, Prod.mk.injEq] at h
            obtain ⟨_, hres, _⟩ := h
            rw [← hres]
            unfold SystemLoanFeeReserve.lock_fee at hrl
            cases c with
            | true =>
              simp only [if_pos, Except.ok.injEq, Prod.mk.injEq] at hrl
              obtain ⟨_, hr⟩ := hrl
              rw [← hr]
              exact ⟨fun hc => absurd hc (by simp), fun _ => ⟨rfl, rfl⟩,
                fun w hw => hw, fun _ hc => absurd hc (by simp)⟩
            | false =>
              simp only [Bool.false_eq_true, if_false] at hrl
              split at hrl
              · exact absurd hrl (by simp)
              · simp only [Except.ok.injEq, Prod.mk.injEq] at hrl
                obtain ⟨_, hr⟩ := hrl
                rw [← hr]
                refine ⟨fun _ => rfl, fun hc => absurd hc (by simp), ?_, ?_⟩
                · intro w hw
                  simp [hw]
                · intro hn _
                  simp [hn]

theorem txStep_reserve (p : TxParams) (st st₁ : TxState) (e : TxEvent)
    (h : txStep p st e = .ok st₁) :
    (∀ w, st.reserve.post_loan = true → st.reserve.fee_vault = some w →
      st₁.reserve.post_loan = true ∧ st₁.reserve.fee_vault = some w) ∧
    ((st.reserve.post_loan = false → st.reserve.fee_vault = none) →
      st₁.reserve.post_loan = false → st₁.reserve.fee_vault = none) := by
  cases e with
  | UpdateVault w d =>
    simp only [txStep, Except.ok.injEq] at h
    rw [← h]
    exact ⟨fun w hp hv => ⟨hp, hv⟩, fun hi hp => hi hp⟩
  | QueryVault w =>
    simp only [txStep, Except.ok.injEq] at h
    rw [← h]
    exact ⟨fun w hp hv => ⟨hp, hv⟩, fun hi hp => hi hp⟩
  | Fail err => simp [txStep] at h
  | LockFee v a c =>
    simp only [txStep] at h
    cases hlf : FungibleVaultBlueprint.lock_fee (p.ctxOf v) v st.reserve
        (st.track.statusOf v) a c ⟨⟨st.track.balances v⟩, ⟨[]⟩⟩ with
    | error e => simp [hlf] at h
    | ok out =>
      obtain ⟨vault₁, reserve₁, eff⟩ := out
      simp only [hlf, Except.ok.injEq] at h
      rw [← h]
      have hev := lock_fee_reserve_evolution (p.ctxOf v) v st.reserve
        (st.track.statusOf v) a c ⟨⟨st.track.balances v⟩, ⟨[]⟩⟩ vault₁ reserve₁ eff hlf
      constructor
      · intro w hp hv
        cases c with
        | true =>
          obtain ⟨hp₁, hv₁⟩ := hev.2.1 rfl
          exact ⟨hp₁.trans hp, hv₁.trans hv⟩
        | false =>
          exact ⟨hev.1 rfl, hev.2.2.1 w hv⟩
      · intro hi hp₁
        cases c with
        | true =>
          obtain ⟨hpe, hve⟩ := hev.2.1 rfl
          rw [hpe] at hp₁
          rw [hve]
          exact hi hp₁
        | false => exact absurd hp₁ (by simp [hev.1 rfl])

theorem txRun_post_lock_pres (p : TxParams) (es : List TxEvent) :
    ∀ (st : TxState) (w : NodeId), st.reserve.post_loan = true →
      st.reserve.fee_vault = some w →
      (txRun p st es).1.reserve.post_loan = true ∧
      (txRun p st es).1.reserve.fee_vault = some w := by
  induction es with
  | nil => intro st w hp hv; exact ⟨hp, hv⟩
  | cons e es ih =>
    intro st w hp hv
    cases h : txStep p st e with
    | ok st₁ =>
      simp only [txRun, h]
      obtain ⟨hp₁, hv₁⟩ := (txStep_reserve p st st₁ e h).1 w hp hv
      exact ih st₁ w hp₁ hv₁
    | error err =>
      simp only [txRun, h]
      exact ⟨hp, hv⟩

theorem txRun_feeInv (p : TxParams) (es : List TxEvent) :
    ∀ st : TxState, (st.reserve.post_loan = false → st.reserve.fee_vault = none) →
      (txRun p st es).1.reserve.post_loan = false →
      (txRun p st es).1.reserve.fee_vault = none := by
  induction es with
  | nil => intro st hi; exact hi
  | cons e es ih =>
    intro st hi
    cases h : txStep p st e with
    | ok st₁ =>
      simp only [txRun, h]
      exact ih st₁ ((txStep_reserve p st st₁ e h).2 hi)
    | error err =>
      simp only [txRun, h]
      exact hi

/-! ## Claim C4 -/

/-- Claim C4: a transaction whose only fee lock is a `LockFee` of the smallest
non-zero Decimal amount (one subunit, 10^-18 XRD) against a loan debt
exceeding it is rejected for insufficiency of repaying the loan
(`FeeReserveError::LoanNotRepaid`, a pre-loan failure): the outcome is
`Reject`, nothing persists, no fee is taken, and every vault balance is
exactly the base balance it had before the transaction. -/
theorem smallest_lock_fee_rejected (p : TxParams) (v : NodeId)
    (hctx : p.ctxOf v = ⟨18, RADIX_TOKEN⟩)
    (hbal : 1 ≤ p.base v)
    (hloan : 1 < p.loan_debt) :
    txExecute p [.LockFee v 1 false] =
      (.Reject (.SystemModuleError (.CostingError (.FeeReserveError .LoanNotRepaid))),
        p.base) := by
  have hchk : check_amount 1 18 = true := by decide
  have hacq : Track.acquire_lock .Unmodified LockFlags.unmodifiedBaseMutable = .ok () := rfl
  have htb : LiquidFungibleResource.take_by_amount ⟨p.base v⟩ 1 = .ok (⟨1⟩, ⟨p.base v - 1⟩) := by
    unfold LiquidFungibleResource.take_by_amount
    rw [if_neg (not_lt.mpr hbal)]
  have hrl : SystemLoanFeeReserve.lock_fee ⟨p.loan_debt, false, none, 0, 0⟩ v ⟨1⟩ false =
      .error .LoanNotRepaid := by
    unfold SystemLoanFeeReserve.lock_fee
    rw [if_neg (by simp)]
    rw [if_pos (by simp [hloan])]
  have hlf : FungibleVaultBlueprint.lock_fee ⟨18, RADIX_TOKEN⟩ v
      ⟨p.loan_debt, false, none, 0, 0⟩ .Unmodified 1 false ⟨⟨p.base v⟩, ⟨[]⟩⟩ =
      .error (.SystemModuleError (.CostingError (.FeeReserveError .LoanNotRepaid))) := by
    unfold FungibleVaultBlueprint.lock_fee
    rw [if_neg (by simp [RADIX_TOKEN])]
    rw [if_neg (by simp [hchk])]
    simp only [hacq, htb, hrl]
  have hstep : txStep p (txInit p) (.LockFee v 1 false) =
      .error (.SystemModuleError (.CostingError (.FeeReserveError .LoanNotRepaid))) := by
    have hst : (txInit p).track.statusOf v = .Unmodified := rfl
    have hres : (txInit p).reserve = ⟨p.loan_debt, false, none, 0, 0⟩ := rfl
    have hbalv : (txInit p).track.balances v = p.base v := rfl
    simp only [txStep]
    rw [hctx, hst, hres, hbalv]
    simp only [hlf]
  have hpost : (txInit p).reserve.post_loan = false := rfl
  unfold txExecute
  simp only [txRun]
  simp only [hstep]
  simp [txFinalize, hpost]

/-- Witness for C4: with base balances 50, loan debt 5, a single one-subunit
fee lock on vault 7 is rejected with `LoanNotRepaid` and every balance stays
at the base. -/
theorem smallest_lock_fee_rejected_witness :
    txExecute ⟨fun _ => ⟨18, 0⟩, fun _ => 50, 5, 2, 3⟩ [.LockFee 7 1 false] =
      (.Reject (.SystemModuleError (.CostingError (.FeeReserveError .LoanNotRepaid))),
        fun _ => 50) :=
  smallest_lock_fee_rejected ⟨fun _ => ⟨18, 0⟩, fun _ => 50, 5, 2, 3⟩ 7 rfl
    (by decide) (by decide)

/-! ## Claim C1 -/

theorem txStep_lock_fee_success (p : TxParams) (st st₁ : TxState) (v : NodeId)
    (a : Decimal) (h : txStep p st (.LockFee v a false) = .ok st₁)
    (hfv : st.reserve.fee_vault = none) :
    st₁.reserve.post_loan = true ∧ st₁.reserve.fee_vault = some v := by
  simp only [txStep] at h
  cases hlf : FungibleVaultBlueprint.lock_fee (p.ctxOf v) v st.reserve
      (st.track.statusOf v) a false ⟨⟨st.track.balances v⟩, ⟨[]⟩⟩ with
  | error e => simp [hlf] at h
  | ok out =>
    obtain ⟨vault₁, reserve₁, eff⟩ := out
    simp only [hlf, Except.ok.injEq] at h
    rw [← h]
    have hev := lock_fee_reserve_evolution (p.ctxOf v) v st.reserve
      (st.track.statusOf v) a false ⟨⟨st.track.balances v⟩, ⟨[]⟩⟩ vault₁ reserve₁ eff hlf
    exact ⟨hev.1 rfl, hev.2.2.2 hfv rfl⟩

/-- Claim C1: a transaction that reaches a successful non-contingent
`lock_fee` on vault `v` (from a pre-loan state) and later fails with a
post-loan `RuntimeError` has outcome `Commit Failure` carrying that error;
the fee-debit force-write is the only surviving state change, so the
fee-paying vault's committed balance is its base balance minus exactly
`effective_price × consumed`, while every other vault's committed balance —
including any vault the discarded buffered writes touched — equals its base
balance. -/
theorem lock_fee_commit_failure (p : TxParams) (pre mid : List TxEvent)
    (v : NodeId) (a : Decimal) (st₀ st₁ st₂ : TxState) (err : RuntimeError)
    (h1 : txRun p (txInit p) pre = (st₀, none))
    (h2 : st₀.reserve.post_loan = false)
    (h3 : txStep p st₀ (.LockFee v a false) = .ok st₁)
    (h4 : txRun p st₁ mid = (st₂, some err)) :
    (txExecute p (pre ++ .LockFee v a false :: mid)).1 = .CommitFailure err ∧
    (txExecute p (pre ++ .LockFee v a false :: mid)).2 v =
      p.base v - p.effective_price * p.consumed ∧
    ∀ w, w ≠ v → (txExecute p (pre ++ .LockFee v a false :: mid)).2 w = p.base w := by
  have hfv₀ : st₀.reserve.fee_vault = none := by
    have hi := txRun_feeInv p pre (txInit p) (fun _ => rfl)
    rw [h1] at hi
    exact hi h2
  have hst₁ := txStep_lock_fee_success p st₀ st₁ v a h3 hfv₀
  have hst₂ := txRun_post_lock_pres p mid st₁ v hst₁.1 hst₁.2
  rw [h4] at hst₂
  have hp2 : st₂.reserve.post_loan = true := hst₂.1
  have hv2 : st₂.reserve.fee_vault = some v := hst₂.2
  have hrun : txRun p (txInit p) (pre ++ .LockFee v a false :: mid) = (st₂, some err) := by
    rw [txRun_append p pre (.LockFee v a false :: mid) (txInit p), h1]
    simp only [txRun, h3]
    exact h4
  have hfin : txExecute p (pre ++ .LockFee v a false :: mid) =
      txFinalize p st₂ (some err) := by
    unfold txExecute
    rw [hrun]
  rw [hfin]
  have hfin₂ : txFinalize p st₂ (some err) =
      (.CommitFailure err,
        fun u => if st₂.reserve.fee_vault = some u then
          p.base u - p.effective_price * p.consumed else p.base u) := by
    simp only [txFinalize]
    rw [if_pos hp2]
  rw [hfin₂]
  refine ⟨rfl, ?_, ?_⟩
  · show (if st₂.reserve.fee_vault = some v then
      p.base v - p.effective_price * p.consumed else p.base v) = _
    rw [if_pos hv2]
  · intro w hw
    show (if st₂.reserve.fee_vault = some w then
      p.base w - p.effective_price * p.consumed else p.base w) = p.base w
    rw [if_neg]
    rw [hv2]
    simp only [Option.some.injEq]
    exact fun hvw => hw hvw.symm

/-- Witness for C1: base balances 1000000, loan debt 5, effective price 2,
consumed 3; the run locks a 10-XRD-subunit fee on vault 7, writes vault 8,
then fails with `WorktopError::AssertionFailed`.  The outcome is a commit
failure, vault 7 ends at 1000000 − 6 and vault 8 stays at 1000000. -/
theorem lock_fee_commit_failure_witness :
    (txExecute ⟨fun _ => ⟨18, 0⟩, fun _ => 1000000, 5, 2, 3⟩
        [.LockFee 7 10 false, .UpdateVault 8 5,
          .Fail (.ApplicationError (.WorktopError .AssertionFailed))]).1 =
      .CommitFailure (.ApplicationError (.WorktopError .AssertionFailed)) ∧
    (txExecute ⟨fun _ => ⟨18, 0⟩, fun _ => 1000000, 5, 2, 3⟩
        [.LockFee 7 10 false, .UpdateVault 8 5,
          .Fail (.ApplicationError (.WorktopError .AssertionFailed))]).2 7 =
      1000000 - 2 * 3 ∧
    (txExecute ⟨fun _ => ⟨18, 0⟩, fun _ => 1000000, 5, 2, 3⟩
        [.LockFee 7 10 false, .UpdateVault 8 5,
          .Fail (.ApplicationError (.WorktopError .AssertionFailed))]).2 8 = 1000000 := by
  obtain ⟨st₁, st₂, h3, h4⟩ :
      ∃ s₁ s₂,
        txStep ⟨fun _ => ⟨18, 0⟩, fun _ => 1000000, 5, 2, 3⟩
          (txInit ⟨fun _ => ⟨18, 0⟩, fun _ => 1000000, 5, 2, 3⟩)
          (.LockFee 7 10 false) = .ok s₁ ∧
        txRun ⟨fun _ => ⟨18, 0⟩, fun _ => 1000000, 5, 2, 3⟩ s₁
          [.UpdateVault 8 5, .Fail (.ApplicationError (.WorktopError .AssertionFailed))] =
          (s₂, some (.ApplicationError (.WorktopError .AssertionFailed))) := ⟨_, _, rfl, rfl⟩
  have h := lock_fee_commit_failure ⟨fun _ => ⟨18, 0⟩, fun _ => 1000000, 5, 2, 3⟩ []
    [.UpdateVault 8 5, .Fail (.ApplicationError (.WorktopError .AssertionFailed))] 7 10
    (txInit ⟨fun _ => ⟨18, 0⟩, fun _ => 1000000, 5, 2, 3⟩) st₁ st₂
    (.ApplicationError (.WorktopError .AssertionFailed)) rfl rfl h3 h4
  exact ⟨h.1, h.2.1, h.2.2 8 (by decide)⟩

/-! ## Claim C5 -/

theorem txRun_non_xrd_preloan (p : TxParams) (es : List TxEvent) :
    ∀ st : TxState, st.reserve.post_loan = false →
      (∀ w b cc, TxEvent.LockFee w b cc ∈ es →
        (p.ctxOf w).resource_address ≠ RADIX_TOKEN) →
      (txRun p st es).1.reserve.post_loan = false := by
  induction es with
  | nil => intro st h _; exact h
  | cons e es ih =>
    intro st h hes
    cases e with
    | LockFee w b cc =>
      have hw := hes w b cc (List.mem_cons_self _ _)
      have hlf := lock_fee_non_xrd_error (p.ctxOf w) w st.reserve (st.track.statusOf w)
        b cc ⟨⟨st.track.balances w⟩, ⟨[]⟩⟩ hw
      have hstep : txStep p st (.LockFee w b cc) =
          .error (.ApplicationError (.VaultError .LockFeeNotRadixToken)) := by
        simp only [txStep, hlf]
      simp only [txRun, hstep]
      exact h
    | UpdateVault w d =>
      have hstep : txStep p st (.UpdateVault w d) =
          .ok ⟨⟨updBal st.track.balances w (st.track.balances w + d),
            updTouched st.track.updated w⟩, st.reserve⟩ := rfl
      simp only [txRun, hstep]
      exact ih _ h (fun w₁ b cc hm => hes w₁ b cc (List.mem_cons_of_mem _ hm))
    | QueryVault w =>
      have hstep : txStep p st (.QueryVault w) = .ok st := rfl
      simp only [txRun, hstep]
      exact ih st h (fun w₁ b cc hm => hes w₁ b cc (List.mem_cons_of_mem _ hm))
    | Fail err =>
      have hstep : txStep p st (.Fail err) = .error err := rfl
      simp only [txRun, hstep]
      exact h

/-- Claim C5: `lock_fee` on a vault whose resource is not XRD fails with
`VaultError::LockFeeNotRadixToken` — the guard is the first statement of the
method, before any vault substate is locked or modified (the error carries no
state change and an empty effect list); and a transaction whose only
attempted fee locks are such calls never leaves the pre-loan phase, so it is
rejected with every balance at its base value — in particular the
single-instruction transaction is rejected with exactly that error. -/
theorem lock_fee_non_xrd (p : TxParams) (es : List TxEvent)
    (ctx : VaultCtx) (receiver : NodeId) (reserve : SystemLoanFeeReserve)
    (status : SubstateStatus) (amount : Decimal) (contingent : Bool)
    (st : FungibleVaultSubstates) (v : NodeId) (a : Decimal) (c : Bool)
    (hctx : ctx.resource_address ≠ RADIX_TOKEN)
    (hes : ∀ w b cc, TxEvent.LockFee w b cc ∈ es →
      (p.ctxOf w).resource_address ≠ RADIX_TOKEN)
    (hv : (p.ctxOf v).resource_address ≠ RADIX_TOKEN) :
    FungibleVaultBlueprint.lock_fee ctx receiver reserve status amount contingent st =
      .error (.ApplicationError (.VaultError .LockFeeNotRadixToken)) ∧
    (∃ err, txExecute p es = (.Reject err, p.base)) ∧
    txExecute p [.LockFee v a c] =
      (.Reject (.ApplicationError (.VaultError .LockFeeNotRadixToken)), p.base) := by
  refine ⟨lock_fee_non_xrd_error ctx receiver reserve status amount contingent st hctx,
    ?_, ?_⟩
  · have hpost := txRun_non_xrd_preloan p es (txInit p) rfl hes
    obtain ⟨st₁, erro, hrr⟩ : ∃ s e, txRun p (txInit p) es = (s, e) :=
      ⟨(txRun p (txInit p) es).1, (txRun p (txInit p) es).2, rfl⟩
    rw [hrr] at hpost
    have hp1 : st₁.reserve.post_loan = false := hpost
    have hex : txExecute p es = txFinalize p st₁ erro := by
      unfold txExecute
      rw [hrr]
    rw [hex]
    cases erro with
    | none =>
      refine ⟨loanNotRepaidError, ?_⟩
      simp only [txFinalize]
      rw [if_neg (by simp [hp1])]
    | some e =>
      refine ⟨e, ?_⟩
      simp only [txFinalize]
      rw [if_neg (by simp [hp1])]
  · have hlf := lock_fee_non_xrd_error (p.ctxOf v) v (txInit p).reserve
      ((txInit p).track.statusOf v) a c ⟨⟨(txInit p).track.balances v⟩, ⟨[]⟩⟩ hv
    have hstep : txStep p (txInit p) (.LockFee v a c) =
        .error (.ApplicationError (.VaultError .LockFeeNotRadixToken)) := by
      simp only [txStep, hlf]
    unfold txExecute
    simp only [txRun]
    simp only [hstep]
    simp [txFinalize, show (txInit p).reserve.post_loan = false from rfl]

/-- Witness for C5: a fee lock on a vault of resource 1 (not XRD) fails with
`LockFeeNotRadixToken`, and a transaction consisting only of such a lock is
rejected with balances unchanged at 50. -/
theorem lock_fee_non_xrd_witness :
    FungibleVaultBlueprint.lock_fee ⟨18, 1⟩ 0 ⟨5, false, none, 0, 0⟩ .Unmodified 10 false
        ⟨⟨50⟩, ⟨[]⟩⟩ =
      .error (.ApplicationError (.VaultError .LockFeeNotRadixToken)) ∧
    txExecute ⟨fun _ => ⟨18, 1⟩, fun _ => 50, 5, 2, 3⟩ [.LockFee 3 10 false] =
      (.Reject (.ApplicationError (.VaultError .LockFeeNotRadixToken)), fun _ => 50) := by
  have h := lock_fee_non_xrd ⟨fun _ => ⟨18, 1⟩, fun _ => 50, 5, 2, 3⟩ [.LockFee 3 10 false]
    ⟨18, 1⟩ 0 ⟨5, false, none, 0, 0⟩ .Unmodified 10 false ⟨⟨50⟩, ⟨[]⟩⟩ 3 10 false
    (by decide) (by intro w b cc hm; simp [RADIX_TOKEN]) (by decide)
  exact ⟨h.1, h.2.2⟩

/-! ## Claim C6 -/

/-- Claim C6: acquiring a substate lock with the `UNMODIFIED_BASE` flag (part
of the `MUTABLE | UNMODIFIED_BASE | FORCE_WRITE` combination used by
`lock_fee` on the vault's liquid substate) fails with
`LockUnmodifiedBaseOnOnUpdatedSubstate` exactly when the base substate has
already been updated in this transaction; a merely-read base is not refused.
Consequently `lock_fee` on a vault whose liquid substate was mutated earlier
in the transaction fails with that error (wrapped as a kernel open-substate
track error), whereas `lock_fee` after only reading the vault's amount
succeeds. -/
theorem unmodified_base_mutable_lock (p : TxParams) (st : TxState) (v : NodeId)
    (δ a : Decimal) (c : Bool)
    (hxrd : (p.ctxOf v).resource_address = RADIX_TOKEN)
    (hchk : check_amount a (p.ctxOf v).divisibility = true)
    (hbal : a ≤ st.track.balances v)
    (hpre : st.track.updated v = false)
    (hloan : st.reserve.loan_debt ≤ a)
    (hpost : st.reserve.post_loan = false) :
    (∀ (flags : LockFlags) (status : SubstateStatus), flags.unmodified_base = true →
      status = .Updated →
      Track.acquire_lock status flags = .error .LockUnmodifiedBaseOnOnUpdatedSubstate) ∧
    (∀ (flags : LockFlags) (status : SubstateStatus), status ≠ .Updated →
      Track.acquire_lock status flags = .ok ()) ∧
    (txRun p st [.UpdateVault v δ, .LockFee v a c]).2 =
      some (.KernelError (.CallFrameError (.OpenSubstateError (.TrackError
        .LockUnmodifiedBaseOnOnUpdatedSubstate)))) ∧
    (txRun p st [.QueryVault v, .LockFee v a false]).2 = none := by
  have hgen : ∀ st' : TxState, st'.track.updated v = true →
      txStep p st' (.LockFee v a c) =
        .error (.KernelError (.CallFrameError (.OpenSubstateError (.TrackError
          .LockUnmodifiedBaseOnOnUpdatedSubstate)))) := by
    intro st' hupd
    have hstatus : st'.track.statusOf v = .Updated := by
      simp [TxTrack.statusOf, hupd]
    have hlf : FungibleVaultBlueprint.lock_fee (p.ctxOf v) v st'.reserve .Updated a c
        ⟨⟨st'.track.balances v⟩, ⟨[]⟩⟩ =
        .error (.KernelError (.CallFrameError (.OpenSubstateError (.TrackError
          .LockUnmodifiedBaseOnOnUpdatedSubstate)))) := by
      unfold FungibleVaultBlueprint.lock_fee
      rw [if_neg (by simp [hxrd])]
      rw [if_neg (by simp [hchk])]
      rfl
    simp only [txStep]
    rw [hstatus]
    simp only [hlf]
  refine ⟨?_, ?_, ?_, ?_⟩
  · intro flags status h1 h2
    unfold Track.acquire_lock
    rw [if_pos (by simp [h1, h2])]
  · intro flags status h
    have hb : (status == SubstateStatus.Updated) = false := by
      cases hs : status == SubstateStatus.Updated
      · rfl
      · exact absurd (eq_of_beq hs) h
    simp [Track.acquire_lock, hb]
  · have hupd₁ : txStep p st (.UpdateVault v δ) =
        .ok ⟨⟨updBal st.track.balances v (st.track.balances v + δ),
          updTouched st.track.updated v⟩, st.reserve⟩ := rfl
    simp only [txRun, hupd₁]
    rw [hgen ⟨⟨updBal st.track.balances v (st.track.balances v + δ),
      updTouched st.track.updated v⟩, st.reserve⟩ (by simp [updTouched])]
  · have hq : txStep p st (.QueryVault v) = .ok st := rfl
    have hstatusU : st.track.statusOf v = .Unmodified := by
      simp [TxTrack.statusOf, hpre]
    have hnl : ¬((⟨a⟩ : LiquidFungibleResource).amount < st.reserve.loan_debt) :=
      not_lt.mpr hloan
    have hrl : st.reserve.lock_fee v ⟨a⟩ false =
        .ok (⟨0⟩, ⟨st.reserve.loan_debt, true,
          (match st.reserve.fee_vault with | some w => some w | none => some v),
          st.reserve.locked_fee + a, st.reserve.contingent_lock⟩) := by
      unfold SystemLoanFeeReserve.lock_fee
      rw [if_neg (by simp)]
      rw [if_neg (by simp [hpost, hnl])]
    have hlf₂ : FungibleVaultBlueprint.lock_fee (p.ctxOf v) v st.reserve .Unmodified a false
        ⟨⟨st.track.balances v⟩, ⟨[]⟩⟩ =
        .ok (⟨⟨st.track.balances v - a⟩, ⟨[]⟩⟩,
          ⟨st.reserve.loan_debt, true,
            (match st.reserve.fee_vault with | some w => some w | none => some v),
            st.reserve.locked_fee + a, st.reserve.contingent_lock⟩,
          [.lockSubstate .Divisibility, .lockSubstate .LiquidFungible,
            .event (.LockFeeEvent a)]) := by
      unfold FungibleVaultBlueprint.lock_fee
      rw [if_neg (by simp [hxrd])]
      rw [if_neg (by simp [hchk])]
      have hacq : Track.acquire_lock .Unmodified LockFlags.unmodifiedBaseMutable = .ok () := rfl
      have htb : LiquidFungibleResource.take_by_amount ⟨st.track.balances v⟩ a =
          .ok (⟨a⟩, ⟨st.track.balances v - a⟩) := by
        unfold LiquidFungibleResource.take_by_amount
        rw [if_neg (not_lt.mpr hbal)]
      simp only [hacq, htb, hrl]
      rfl
    have hstep₄ : txStep p st (.LockFee v a false) =
        .ok ⟨⟨updBal st.track.balances v (st.track.balances v - a),
          updTouched st.track.updated v⟩,
          ⟨st.reserve.loan_debt, true,
            (match st.reserve.fee_vault with | some w => some w | none => some v),
            st.reserve.locked_fee + a, st.reserve.contingent_lock⟩⟩ := by
      simp only [txStep]
      rw [hstatusU]
      simp only [hlf₂]
    simp only [txRun, hq, hstep₄]

/-- Witness for C6: over base balances 50, updating vault 7 and then locking a
fee on it fails with the unmodified-base track error, while querying it first
leaves the lock fee successful. -/
theorem unmodified_base_mutable_lock_witness :
    Track.acquire_lock .Updated LockFlags.unmodifiedBaseMutable =
      .error .LockUnmodifiedBaseOnOnUpdatedSubstate ∧
    (txRun ⟨fun _ => ⟨18, 0⟩, fun _ => 50, 5, 2, 3⟩
        (txInit ⟨fun _ => ⟨18, 0⟩, fun _ => 50, 5, 2, 3⟩)
        [.UpdateVault 7 4, .LockFee 7 10 false]).2 =
      some (.KernelError (.CallFrameError (.OpenSubstateError (.TrackError
        .LockUnmodifiedBaseOnOnUpdatedSubstate)))) ∧
    (txRun ⟨fun _ => ⟨18, 0⟩, fun _ => 50, 5, 2, 3⟩
        (txInit ⟨fun _ => ⟨18, 0⟩, fun _ => 50, 5, 2, 3⟩)
        [.QueryVault 7, .LockFee 7 10 false]).2 = none := by
  have h := unmodified_base_mutable_lock ⟨fun _ => ⟨18, 0⟩, fun _ => 50, 5, 2, 3⟩
    (txInit ⟨fun _ => ⟨18, 0⟩, fun _ => 50, 5, 2, 3⟩) 7 4 10 false rfl (by decide)
    (by decide) rfl (by decide) rfl
  exact ⟨h.1 LockFlags.unmodifiedBaseMutable .Updated rfl rfl, h.2.2.1, h.2.2.2⟩

end RadixEngine
